import Mathlib

/-!
Verification of the quest-sage client rendering core against its specification.

This file contains a shallow embedding, in Lean 4, of the parts of the
repository that the specification's testable properties talk about:

* `src/qs-client/src/graphics/batch.rs` — the vertex `Batch` accumulator
  (capacity-triggered flushing, index padding, final flush);
* `src/qs-client/src/graphics/multi_batch.rs` — the `MultiBatch` aggregator
  (texture-compatibility grouping, layer-boundary flushes, transient-miss
  handling of unloaded textures);
* `src/qs-client/src/ui/text.rs` — the rich-text builder and typesetter
  (segment splitting, glue/word boundaries, last-write-wins text ids);
* `src/qs-client/src/graphics/texture.rs` and `src/texture-atlas/src/lib.rs`
  — the nine-patch quad generator over a texture-atlas region.

Modelling conventions:

* `f32` scalars are modelled as exact rationals (`ℚ`).  Every property
  proved or refuted here is about the exact arithmetic the source performs;
  no claim about floating-point rounding is made.
* machine-integer casts are modelled with explicit `% 2 ^ 16` where the
  source performs a `u16` cast.
* GPU resources (textures, fonts, the wgpu queue) are modelled by opaque
  identifiers and environments; submitted draw calls are recorded in an
  event trace so that ordering and counting properties can be stated.
* fallible operations return `Option` (`none` models a Rust `panic!` or an
  absent value).
-/

set_option maxHeartbeats 1600000

namespace QuestSage

/-! ## Vertices and renderables (`graphics/batch.rs`) -/

/-- Model of `batch.rs::Vertex`: position (3 floats), colour (RGBA), texture
coordinate.  Floats are modelled as exact rationals. -/
structure Vertex where
  position : ℚ × ℚ × ℚ
  color : ℚ × ℚ × ℚ × ℚ
  tex_coords : ℚ × ℚ
deriving DecidableEq

/-- Model of `batch.rs::Renderable`. -/
inductive Renderable where
  | Empty
  | Triangle (v0 v1 v2 : Vertex)
  | Quadrilateral (v0 v1 v2 v3 : Vertex)
deriving DecidableEq

/-- `batch.rs::MAX_VERTEX_COUNT`. -/
def MAX_VERTEX_COUNT : Nat := 40960

/-- `batch.rs::MAX_INDEX_COUNT`. -/
def MAX_INDEX_COUNT : Nat := 81920

theorem MAX_VERTEX_COUNT_eq : MAX_VERTEX_COUNT = 40960 := rfl

theorem MAX_INDEX_COUNT_eq : MAX_INDEX_COUNT = 81920 := rfl

/-- Observable GPU-facing events of one `Batch::render` call.
`uniformWrite` is the `queue.write_buffer` of the camera uniforms at the
start of `render`; `draw` is one `draw_indexed` submission inside `flush`,
recording both the accumulated index list (`raw`) and the possibly padded
list that is actually written and drawn (`padded`). -/
inductive BatchEvent where
  | uniformWrite
  | draw (raw padded : List Nat)
deriving DecidableEq

/-- The mutable accumulation state of `Batch::render`: the `verts` and
`inds` vectors plus the trace of GPU submissions made so far. -/
structure BatchState where
  verts : List Vertex
  inds : List Nat
  events : List BatchEvent
deriving DecidableEq

namespace Batch

/-- Model of `Batch::flush`: if the index accumulator is non-empty, pad it
to even length with a dummy `0` index and issue one draw call; in all cases
clear both accumulators.  (The texture/uniform bind groups and the queue
submission happen inside the non-empty branch only.) -/
def flush (s : BatchState) : BatchState :=
  if s.inds = [] then
    { s with verts := [], inds := [] }
  else
    let padded := if s.inds.length % 2 = 1 then s.inds ++ [0] else s.inds
    { verts := [], inds := [], events := s.events ++ [.draw s.inds padded] }

/-- The condition tested by `Batch::ensure_capacity`. -/
def needsFlush (s : BatchState) (new_verts new_inds : Nat) : Bool :=
  s.verts.length + new_verts > MAX_VERTEX_COUNT
    || s.inds.length + new_inds > MAX_INDEX_COUNT

/-- Model of `Batch::ensure_capacity`. -/
def ensure_capacity (s : BatchState) (new_verts new_inds : Nat) : BatchState :=
  if needsFlush s new_verts new_inds then flush s else s

/-- One iteration of the `for renderable in items` loop of `Batch::render`.
The `as u16` casts on the base index are modelled by `% 2 ^ 16`. -/
def renderStep (s : BatchState) (r : Renderable) : BatchState :=
  match r with
  | .Empty => s
  | .Triangle v0 v1 v2 =>
    let s := ensure_capacity s 3 3
    let i0 := s.verts.length % 2 ^ 16
    { s with verts := s.verts ++ [v0, v1, v2],
             inds := s.inds ++ [i0, (i0 + 1) % 2 ^ 16, (i0 + 2) % 2 ^ 16] }
  | .Quadrilateral v0 v1 v2 v3 =>
    let s := ensure_capacity s 4 6
    let i0 := s.verts.length % 2 ^ 16
    { s with verts := s.verts ++ [v0, v1, v2, v3],
             inds := s.inds ++ [i0, (i0 + 1) % 2 ^ 16, (i0 + 2) % 2 ^ 16,
                                i0, (i0 + 2) % 2 ^ 16, (i0 + 3) % 2 ^ 16] }

/-- The state at the start of `Batch::render`: empty accumulators, with the
camera uniform write already recorded (it happens before the item loop). -/
def initState : BatchState := { verts := [], inds := [], events := [.uniformWrite] }

/-- Model of `Batch::render`: write the camera uniforms, consume every item,
then always call `flush` once more. -/
def render (items : List Renderable) : BatchState :=
  flush (items.foldl renderStep initState)

/-- All intermediate accumulator states of `Batch::render`, one per consumed
item (including the initial state), before the final flush. -/
def statesDuring (items : List Renderable) : List BatchState :=
  items.scanl renderStep initState

/-- Vertices appended by one renderable. -/
def newVerts : Renderable → Nat
  | .Empty => 0
  | .Triangle _ _ _ => 3
  | .Quadrilateral _ _ _ _ => 4

/-- Indices appended by one renderable. -/
def newInds : Renderable → Nat
  | .Empty => 0
  | .Triangle _ _ _ => 3
  | .Quadrilateral _ _ _ _ => 6

/-- The reachable-state invariant of the accumulators: both counts are
within capacity and the vertex count never exceeds the index count. -/
def Inv (s : BatchState) : Prop :=
  s.verts.length ≤ MAX_VERTEX_COUNT ∧ s.inds.length ≤ MAX_INDEX_COUNT ∧
    s.verts.length ≤ s.inds.length

theorem flush_verts (s : BatchState) : (flush s).verts = [] := by
  unfold flush
  split <;> simp

theorem flush_inds (s : BatchState) : (flush s).inds = [] := by
  unfold flush
  split <;> simp

theorem flush_inv (s : BatchState) : Inv (flush s) := by
  unfold Inv
  rw [flush_verts, flush_inds]
  simp

theorem inv_init : Inv initState := by
  unfold Inv initState
  simp

theorem needsFlush_iff (s : BatchState) (nv ni : Nat) :
    needsFlush s nv ni = true ↔
      (s.verts.length + nv > MAX_VERTEX_COUNT ∨ s.inds.length + ni > MAX_INDEX_COUNT) := by
  unfold needsFlush
  simp

theorem ensure_capacity_bounds {s : BatchState} (h : Inv s) (nv ni : Nat)
    (hnv : nv ≤ 4) (hni : ni ≤ 6) :
    (ensure_capacity s nv ni).verts.length + nv ≤ MAX_VERTEX_COUNT ∧
    (ensure_capacity s nv ni).inds.length + ni ≤ MAX_INDEX_COUNT ∧
    (ensure_capacity s nv ni).verts.length ≤ (ensure_capacity s nv ni).inds.length := by
  obtain ⟨hv, hi, hvi⟩ := h
  unfold ensure_capacity
  by_cases hb : needsFlush s nv ni = true
  · rw [if_pos hb]
    rw [flush_verts, flush_inds]
    simp only [List.length_nil]
    simp only [MAX_VERTEX_COUNT_eq, MAX_INDEX_COUNT_eq] at *
    omega
  · rw [if_neg hb]
    rw [needsFlush_iff] at hb
    push_neg at hb
    exact ⟨hb.1, hb.2, hvi⟩

theorem renderStep_inv {s : BatchState} (h : Inv s) (r : Renderable) :
    Inv (renderStep s r) := by
  cases r with
  | Empty => exact h
  | Triangle v0 v1 v2 =>
    obtain ⟨h1, h2, h3⟩ := ensure_capacity_bounds h 3 3 (by omega) (by omega)
    unfold renderStep Inv
    simp only [List.length_append, List.length_cons, List.length_nil]
    omega
  | Quadrilateral v0 v1 v2 v3 =>
    obtain ⟨h1, h2, h3⟩ := ensure_capacity_bounds h 4 6 (by omega) (by omega)
    unfold renderStep Inv
    simp only [List.length_append, List.length_cons, List.length_nil]
    omega

theorem statesDuring_inv (items : List Renderable) :
    ∀ s ∈ statesDuring items, Inv s := by
  unfold statesDuring
  suffices h : ∀ (l : List Renderable) (s0 : BatchState), Inv s0 →
      ∀ s ∈ l.scanl renderStep s0, Inv s by
    exact h items initState inv_init
  intro l
  induction l with
  | nil =>
    intro s0 h0 s hs
    simp only [List.scanl] at hs
    simp only [List.mem_singleton] at hs
    exact hs ▸ h0
  | cons a l ih =>
    intro s0 h0 s hs
    simp only [List.scanl, List.mem_cons] at hs
    rcases hs with rfl | hs
    · exact h0
    · exact ih (renderStep s0 a) (renderStep_inv h0 a) s hs

theorem flush_events_ne {s : BatchState} (hne : s.inds ≠ []) :
    (flush s).events ≠ s.events := by
  unfold flush
  rw [if_neg hne]
  simp

/-- During a step, the event trace grows exactly when a flush issued a
draw.  Under the reachable-state invariant this happens iff appending the
item would push a count past its capacity. -/
theorem renderStep_flush_iff {s : BatchState} (h : Inv s) (r : Renderable) :
    (renderStep s r).events ≠ s.events ↔
      (s.verts.length + newVerts r > MAX_VERTEX_COUNT ∨
        s.inds.length + newInds r > MAX_INDEX_COUNT) := by
  obtain ⟨hv, hi, hvi⟩ := h
  have hinds : ∀ (nv ni : Nat), nv ≤ 4 → ni ≤ 6 →
      needsFlush s nv ni = true → s.inds ≠ [] := by
    intro nv ni hnv hni hb hnil
    rw [needsFlush_iff] at hb
    rw [hnil] at hb hvi
    simp only [List.length_nil] at hb hvi
    simp only [MAX_VERTEX_COUNT_eq, MAX_INDEX_COUNT_eq] at hb
    rcases hb with hb | hb <;> omega
  cases r with
  | Empty =>
    unfold renderStep newVerts newInds
    constructor
    · intro hne; exact absurd rfl hne
    · intro hc
      exfalso
      simp only [MAX_VERTEX_COUNT_eq, MAX_INDEX_COUNT_eq] at *
      rcases hc with hc | hc <;> omega
  | Triangle v0 v1 v2 =>
    unfold renderStep newVerts newInds
    simp only []
    by_cases hb : needsFlush s 3 3 = true
    · unfold ensure_capacity
      rw [if_pos hb]
      have hne := flush_events_ne (hinds 3 3 (by omega) (by omega) hb)
      constructor
      · intro _
        exact (needsFlush_iff s 3 3).mp hb
      · intro _
        exact hne
    · unfold ensure_capacity
      rw [if_neg hb]
      constructor
      · intro hcon; exact absurd rfl hcon
      · intro hc
        exact absurd ((needsFlush_iff s 3 3).mpr hc) hb
  | Quadrilateral v0 v1 v2 v3 =>
    unfold renderStep newVerts newInds
    simp only []
    by_cases hb : needsFlush s 4 6 = true
    · unfold ensure_capacity
      rw [if_pos hb]
      have hne := flush_events_ne (hinds 4 6 (by omega) (by omega) hb)
      constructor
      · intro _
        exact (needsFlush_iff s 4 6).mp hb
      · intro _
        exact hne
    · unfold ensure_capacity
      rw [if_neg hb]
      constructor
      · intro hcon; exact absurd rfl hcon
      · intro hc
        exact absurd ((needsFlush_iff s 4 6).mpr hc) hb

/-- An event is well-formed when any draw it records uses an even-length
padded index buffer obtained from the non-empty accumulated run by
appending at most one dummy `0` index. -/
def goodEvent : BatchEvent → Prop
  | .uniformWrite => True
  | .draw raw padded =>
    padded.length % 2 = 0 ∧ raw ≠ [] ∧
      (if raw.length % 2 = 1 then padded = raw ++ [0] else padded = raw)

theorem good_flush {s : BatchState} (h : ∀ e ∈ s.events, goodEvent e) :
    ∀ e ∈ (flush s).events, goodEvent e := by
  unfold flush
  by_cases hnil : s.inds = []
  · rw [if_pos hnil]
    simpa using h
  · rw [if_neg hnil]
    intro e he
    simp only [List.mem_append, List.mem_singleton] at he
    rcases he with he | rfl
    · exact h e he
    · unfold goodEvent
      refine ⟨?_, hnil, ?_⟩
      · by_cases hodd : s.inds.length % 2 = 1
        · rw [if_pos hodd]
          simp only [List.length_append, List.length_singleton]
          omega
        · rw [if_neg hodd]
          omega
      · by_cases hodd : s.inds.length % 2 = 1
        · rw [if_pos hodd, if_pos hodd]
        · rw [if_neg hodd, if_neg hodd]

theorem good_step {s : BatchState} (h : ∀ e ∈ s.events, goodEvent e)
    (r : Renderable) : ∀ e ∈ (renderStep s r).events, goodEvent e := by
  have hens : ∀ nv ni, ∀ e ∈ (ensure_capacity s nv ni).events, goodEvent e := by
    intro nv ni
    unfold ensure_capacity
    by_cases hb : needsFlush s nv ni = true
    · rw [if_pos hb]; exact good_flush h
    · rw [if_neg hb]; exact h
  cases r with
  | Empty => exact h
  | Triangle v0 v1 v2 => exact hens 3 3
  | Quadrilateral v0 v1 v2 v3 => exact hens 4 6

theorem good_render (items : List Renderable) :
    ∀ e ∈ (render items).events, goodEvent e := by
  unfold render
  apply good_flush
  suffices hgen : ∀ (l : List Renderable) (s : BatchState),
      (∀ e ∈ s.events, goodEvent e) → ∀ e ∈ (l.foldl renderStep s).events, goodEvent e by
    apply hgen
    intro e he
    simp only [initState, List.mem_singleton] at he
    subst he
    trivial
  intro l
  induction l with
  | nil => intro s h; exact h
  | cons a l ih =>
    intro s h
    exact ih (renderStep s a) (good_step h a)

theorem flush_events_append (s : BatchState) :
    ∃ t, (flush s).events = s.events ++ t := by
  unfold flush
  by_cases hnil : s.inds = []
  · rw [if_pos hnil]
    exact ⟨[], by simp⟩
  · rw [if_neg hnil]
    exact ⟨_, rfl⟩

theorem step_events_append (s : BatchState) (r : Renderable) :
    ∃ t, (renderStep s r).events = s.events ++ t := by
  have hens : ∀ nv ni, ∃ t, (ensure_capacity s nv ni).events = s.events ++ t := by
    intro nv ni
    unfold ensure_capacity
    by_cases hb : needsFlush s nv ni = true
    · rw [if_pos hb]; exact flush_events_append s
    · rw [if_neg hb]; exact ⟨[], by simp⟩
  cases r with
  | Empty => exact ⟨[], by simp [renderStep]⟩
  | Triangle v0 v1 v2 => exact hens 3 3
  | Quadrilateral v0 v1 v2 v3 => exact hens 4 6

theorem foldl_events_append (l : List Renderable) :
    ∀ s : BatchState, ∃ t, (l.foldl renderStep s).events = s.events ++ t := by
  induction l with
  | nil => intro s; exact ⟨[], by simp⟩
  | cons a l ih =>
    intro s
    obtain ⟨t1, h1⟩ := step_events_append s a
    obtain ⟨t2, h2⟩ := ih (renderStep s a)
    refine ⟨t1 ++ t2, ?_⟩
    rw [List.foldl_cons, h2, h1, List.append_assoc]

end Batch

/-- Claim C2: for every sequence of `Renderable` items consumed by
`Batch::render`, after each item is appended the accumulated vertex count
never exceeds the fixed vertex capacity (40960, strictly less than `2^16`)
and the accumulated index count never exceeds the fixed index capacity
(81920); a flush (observable as a newly recorded draw submission) occurs
exactly when appending the next item would push either count past its
bound. -/
theorem claim_C2_capacity_flush_invariant :
    MAX_VERTEX_COUNT = 40960 ∧ MAX_VERTEX_COUNT < 2 ^ 16 ∧ MAX_INDEX_COUNT = 81920 ∧
    ∀ (items : List Renderable), ∀ s ∈ Batch.statesDuring items,
      (s.verts.length ≤ MAX_VERTEX_COUNT ∧ s.inds.length ≤ MAX_INDEX_COUNT) ∧
      ∀ r : Renderable,
        ((Batch.renderStep s r).events ≠ s.events ↔
          (s.verts.length + Batch.newVerts r > MAX_VERTEX_COUNT ∨
            s.inds.length + Batch.newInds r > MAX_INDEX_COUNT)) := by
  refine ⟨rfl, by decide, rfl, ?_⟩
  intro items s hs
  have hinv := Batch.statesDuring_inv items s hs
  exact ⟨⟨hinv.1, hinv.2.1⟩, fun r => Batch.renderStep_flush_iff hinv r⟩

/-- Witness for C2, instantiated at the singleton item list containing one
triangle and the initial accumulator state. -/
theorem claim_C2_capacity_flush_invariant_witness :
    (Batch.initState.verts.length ≤ MAX_VERTEX_COUNT ∧
      Batch.initState.inds.length ≤ MAX_INDEX_COUNT) ∧
    ∀ r : Renderable,
      ((Batch.renderStep Batch.initState r).events ≠ Batch.initState.events ↔
        (Batch.initState.verts.length + Batch.newVerts r > MAX_VERTEX_COUNT ∨
          Batch.initState.inds.length + Batch.newInds r > MAX_INDEX_COUNT)) :=
  claim_C2_capacity_flush_invariant.2.2.2 [Renderable.Empty] Batch.initState
    (by simp [Batch.statesDuring, List.scanl])

/-- Claim C7: every draw call issued by a flush uses an even-length index
buffer; an odd-length accumulated index run gets exactly one padding index
of value `0` appended, and the padded buffer differs from the accumulated
run only by that trailing padding index. -/
theorem claim_C7_index_parity :
    ∀ (items : List Renderable) (raw padded : List Nat),
      BatchEvent.draw raw padded ∈ (Batch.render items).events →
        padded.length % 2 = 0 ∧ raw ≠ [] ∧
          (if raw.length % 2 = 1 then padded = raw ++ [0] else padded = raw) := by
  intro items raw padded hmem
  exact Batch.good_render items _ hmem

/-- Witness for C7: rendering a single triangle accumulates the odd-length
index run `[0, 1, 2]`, and the flushed draw uses `[0, 1, 2, 0]`. -/
theorem claim_C7_index_parity_witness :
    ([0, 1, 2, 0] : List Nat).length % 2 = 0 ∧ ([0, 1, 2] : List Nat) ≠ [] ∧
      (if ([0, 1, 2] : List Nat).length % 2 = 1
       then ([0, 1, 2, 0] : List Nat) = [0, 1, 2] ++ [0]
       else ([0, 1, 2, 0] : List Nat) = [0, 1, 2]) :=
  claim_C7_index_parity
    [Renderable.Triangle ⟨(0, 0, 0), (0, 0, 0, 0), (0, 0)⟩
      ⟨(0, 0, 0), (0, 0, 0, 0), (0, 0)⟩ ⟨(0, 0, 0), (0, 0, 0, 0), (0, 0)⟩]
    [0, 1, 2] [0, 1, 2, 0] (by decide)

/-- Counterexample to claim C6 as stated: with an empty input iterator the
final flush is still called, but it issues no draw call and never binds the
texture or camera bind groups, so no camera/texture state is applied for
this render target (the only recorded event is the camera uniform-buffer
write that happens at the start of `render`, before the final flush). -/
theorem claim_C6_counterexample :
    (Batch.render []).events = [BatchEvent.uniformWrite] ∧
    ∀ raw padded : List Nat, BatchEvent.draw raw padded ∉ (Batch.render []).events := by
  constructor
  · rfl
  · intro raw padded hmem
    have h : (Batch.render []).events = [BatchEvent.uniformWrite] := rfl
    rw [h] at hmem
    simp at hmem

/-- Claim C6, amended: `Batch::render` always invokes `flush` once after
consuming all items (both accumulators are left cleared); that final flush
issues exactly one draw call if the accumulated index list is non-empty and
issues no draw call (applying no camera/texture state for this render
target) if it is empty; the camera uniform write is recorded once at the
start of `render` regardless. -/
theorem claim_C6_amended :
    ∀ items : List Renderable,
      Batch.render items = Batch.flush (items.foldl Batch.renderStep Batch.initState) ∧
      (Batch.render items).verts = [] ∧ (Batch.render items).inds = [] ∧
      (Batch.render items).events =
        (items.foldl Batch.renderStep Batch.initState).events ++
          (if (items.foldl Batch.renderStep Batch.initState).inds = [] then []
           else [BatchEvent.draw (items.foldl Batch.renderStep Batch.initState).inds
              (if (items.foldl Batch.renderStep Batch.initState).inds.length % 2 = 1
               then (items.foldl Batch.renderStep Batch.initState).inds ++ [0]
               else (items.foldl Batch.renderStep Batch.initState).inds)]) ∧
      (Batch.render items).events.head? = some BatchEvent.uniformWrite := by
  intro items
  refine ⟨rfl, Batch.flush_verts _, Batch.flush_inds _, ?_, ?_⟩
  · unfold Batch.render Batch.flush
    by_cases hnil : (items.foldl Batch.renderStep Batch.initState).inds = []
    · rw [if_pos hnil, if_pos hnil]
      simp
    · rw [if_neg hnil, if_neg hnil]
  · obtain ⟨t1, h1⟩ := Batch.foldl_events_append items Batch.initState
    obtain ⟨t2, h2⟩ := Batch.flush_events_append (items.foldl Batch.renderStep Batch.initState)
    unfold Batch.render
    rw [h2, h1]
    rfl

/-! ## Texture atlas regions (`texture-atlas/src/lib.rs`,
`graphics/texture.rs`) -/

/-- Model of `texture_atlas::Rect`: a pixel rectangle with origin at the
top-left of the texture atlas (`u32` fields). -/
structure Rect where
  x : Nat
  y : Nat
  w : Nat
  h : Nat
deriving DecidableEq

/-- Model of `texture_atlas::TextureRegionInformation`. -/
structure TextureRegionInformation where
  frame : Rect
  rotated : Bool
  trimmed : Bool
  source : Rect
deriving DecidableEq

/-- Model of `graphics/texture.rs::InternalTextureRegionInformation`. -/
structure InternalTextureRegionInformation where
  info : TextureRegionInformation
  partitioned_texture_size : Nat × Nat
deriving DecidableEq

/-- Model of `graphics/texture.rs::TextureRegion`.  The
`Asset<PartitionedTexture>` handle is modelled as an opaque identifier
(asset handles compare by identity); `info` is `none` until the partitioned
texture finishes loading. -/
structure TextureRegion where
  partitioned_texture : Nat
  info : Option InternalTextureRegionInformation
deriving DecidableEq

/-! ## MultiBatch aggregator (`graphics/multi_batch.rs`) -/

/-- Model of `multi_batch.rs::BatchRenderTexture`.  Texture assets are
opaque identifiers. -/
inductive BatchRenderTexture where
  | Nothing
  | Texture (t : Nat)
  | PartitionedTexture (t : Nat)
deriving DecidableEq

/-- Model of `BatchRenderTexture::compatible_with`. -/
def BatchRenderTexture.compatible_with (a b : BatchRenderTexture) : Bool :=
  if a = BatchRenderTexture.Nothing || b = BatchRenderTexture.Nothing then
    true
  else
    a = b

/-- The loading status of the texture assets, as observed by the
`if_loaded` calls in `MultiBatchRenderState::perform_render`. -/
structure AssetConfig where
  textureLoaded : Nat → Bool
  partitionedLoaded : Nat → Bool

/-- Draw calls issued by the `MultiBatch`: one `TextRenderer::draw_text`
call with the pending text runs, or one `Batch::render` call with the
pending shapes bound to one texture.  `RenderableWord` is not defined
under `src/` (only referenced), so a pending text run is modelled as an
opaque word identifier plus its `Point<f32>` offset; `perform_render`
never inspects it. -/
inductive MBEvent where
  | textDraw (words : List ((ℚ × ℚ) × Nat))
  | shapeDraw (texture : BatchRenderTexture) (shapes : List Renderable)
deriving DecidableEq

/-- The state threaded by `MultiBatchRenderState`: the pending text runs,
pending shapes and committed texture, plus (as ghost observations) the
trace of issued draw calls and the number of `perform_render` calls. -/
structure MBState where
  text_render_data : List ((ℚ × ℚ) × Nat)
  batch_render_data : List Renderable
  batch_render_texture : BatchRenderTexture
  trace : List MBEvent
  flushes : Nat
deriving DecidableEq

namespace MultiBatch

/-- Model of `MultiBatchRenderState::perform_render`: drain the pending
text (one text draw call) if non-empty; then, if the pending shapes are
non-empty, take the committed texture (resetting the marker to `Nothing`)
and, when that texture asset is loaded, issue one `Batch::render` call
with all pending shapes and clear them — an unloaded texture leaves the
pending shapes in place (`take` happens inside the `if_loaded` closure). -/
def performRender (cfg : AssetConfig) (s : MBState) : MBState :=
  let s1 :=
    if s.text_render_data = [] then { s with flushes := s.flushes + 1 }
    else { s with text_render_data := [],
                  trace := s.trace ++ [.textDraw s.text_render_data],
                  flushes := s.flushes + 1 }
  if s1.batch_render_data = [] then s1
  else
    match s1.batch_render_texture with
    | .Nothing => { s1 with batch_render_texture := .Nothing }
    | .Texture t =>
      if cfg.textureLoaded t then
        { s1 with batch_render_texture := .Nothing, batch_render_data := [],
                  trace := s1.trace ++ [.shapeDraw (.Texture t) s1.batch_render_data] }
      else { s1 with batch_render_texture := .Nothing }
    | .PartitionedTexture t =>
      if cfg.partitionedLoaded t then
        { s1 with batch_render_texture := .Nothing, batch_render_data := [],
                  trace := s1.trace ++ [.shapeDraw (.PartitionedTexture t) s1.batch_render_data] }
      else { s1 with batch_render_texture := .Nothing }

end MultiBatch

/-- Model of `multi_batch.rs::MultiRenderable`.  Shaped text words are
opaque identifiers (see `MBEvent`); offsets are `Point<f32>` pairs. -/
inductive MultiRenderable where
  | Nothing
  | Layered (children : List MultiRenderable)
  | Adjacent (children : List MultiRenderable)
  | Text (word : Nat) (offset : ℚ × ℚ)
  | Image (texture : Nat) (renderables : List Renderable)
  | ImageRegion (texture : TextureRegion) (renderables : List Renderable)

namespace MultiBatch

mutual

/-- Model of `MultiBatchRenderState::incremental_render`.  `Layered` walks
its first child, then flushes before each subsequent child
(`renderLayersRest`); `Adjacent` walks children in order with no flush
(`renderAdjacent`); `Text` appends to the pending text runs; `Image` and
`ImageRegion` flush first iff the new texture is incompatible with the
committed one, then commit the new texture and append the renderables. -/
def incremental_render (cfg : AssetConfig) (s : MBState) :
    MultiRenderable → MBState
  | .Nothing => s
  | .Layered layers =>
    match layers with
    | [] => s
    | first :: rest => renderLayersRest cfg (incremental_render cfg s first) rest
  | .Adjacent items => renderAdjacent cfg s items
  | .Text word offset =>
    { s with text_render_data := s.text_render_data ++ [(offset, word)] }
  | .Image texture renderables =>
    let newTex := BatchRenderTexture.Texture texture
    let s :=
      if s.batch_render_texture.compatible_with newTex then s
      else performRender cfg s
    { s with batch_render_texture := newTex,
             batch_render_data := s.batch_render_data ++ renderables }
  | .ImageRegion texture renderables =>
    let newTex := BatchRenderTexture.PartitionedTexture texture.partitioned_texture
    let s :=
      if s.batch_render_texture.compatible_with newTex then s
      else performRender cfg s
    { s with batch_render_texture := newTex,
             batch_render_data := s.batch_render_data ++ renderables }

/-- The `index != 0` iterations of the `Layered` loop: flush, then walk the
next layer. -/
def renderLayersRest (cfg : AssetConfig) (s : MBState) :
    List MultiRenderable → MBState
  | [] => s
  | layer :: rest =>
    renderLayersRest cfg (incremental_render cfg (performRender cfg s) layer) rest

/-- The `Adjacent` loop: walk children in order into the same state. -/
def renderAdjacent (cfg : AssetConfig) (s : MBState) :
    List MultiRenderable → MBState
  | [] => s
  | item :: rest => renderAdjacent cfg (incremental_render cfg s item) rest

end

/-- The initial state of `MultiBatch::render`. -/
def initState : MBState :=
  { text_render_data := [], batch_render_data := [],
    batch_render_texture := .Nothing, trace := [], flushes := 0 }

/-- Model of `MultiBatch::render`: walk the tree incrementally from an
empty state, then perform one final render. -/
def render (cfg : AssetConfig) (renderable : MultiRenderable) : MBState :=
  performRender cfg (incremental_render cfg initState renderable)

end MultiBatch

mutual

/-- The textures of the `Image`/`ImageRegion` nodes of a tree, in
depth-first traversal order. -/
def imgTexes : MultiRenderable → List BatchRenderTexture
  | .Nothing => []
  | .Layered ls => imgTexesList ls
  | .Adjacent ls => imgTexesList ls
  | .Text _ _ => []
  | .Image t _ => [.Texture t]
  | .ImageRegion tr _ => [.PartitionedTexture tr.partitioned_texture]

def imgTexesList : List MultiRenderable → List BatchRenderTexture
  | [] => []
  | r :: rs => imgTexes r ++ imgTexesList rs

end

mutual

/-- The number of explicit layer boundaries of a tree: a `Layered` node
with `n` children contributes `n - 1` boundaries, plus those of every
subtree. -/
def layerBoundaries : MultiRenderable → Nat
  | .Nothing => 0
  | .Layered ls => (ls.length - 1) + layerBoundariesList ls
  | .Adjacent ls => layerBoundariesList ls
  | .Text _ _ => 0
  | .Image _ _ => 0
  | .ImageRegion _ _ => 0

def layerBoundariesList : List MultiRenderable → Nat
  | [] => 0
  | r :: rs => layerBoundaries r + layerBoundariesList rs

end

/-- Number of shape draw calls in a trace. -/
def countShapeDraws (tr : List MBEvent) : Nat :=
  tr.countP fun e => match e with | .shapeDraw _ _ => true | _ => false

/-- Number of text draw calls in a trace. -/
def countTextDraws (tr : List MBEvent) : Nat :=
  tr.countP fun e => match e with | .textDraw _ => true | _ => false

/-- The number of texture-compatibility transitions along a texture list,
starting from committed texture `c`: each consecutive pair of incompatible
textures counts one. -/
def transCount : BatchRenderTexture → List BatchRenderTexture → Nat
  | _, [] => 0
  | c, t :: ts => (if c.compatible_with t then 0 else 1) + transCount t ts

/-- The last texture of `l`, or `c` if `l` is empty. -/
def lastOr (c : BatchRenderTexture) (l : List BatchRenderTexture) :
    BatchRenderTexture :=
  l.getLastD c

/-- All texture assets the configuration can be asked about are loaded. -/
def AssetConfig.allLoaded (cfg : AssetConfig) : Prop :=
  (∀ t, cfg.textureLoaded t = true) ∧ (∀ t, cfg.partitionedLoaded t = true)

/-- Reachable-state invariant of the aggregator under `allLoaded`: pending
shapes always have a committed (non-sentinel) texture. -/
def MBInv (s : MBState) : Prop :=
  s.batch_render_data ≠ [] → s.batch_render_texture ≠ BatchRenderTexture.Nothing

/-- `x` is the committed texture after traversing images `l` from committed
texture `c`: either some flush reset it to the sentinel, or it is the last
image texture (or `c` when there is none). -/
def texEnd (c : BatchRenderTexture) (l : List BatchRenderTexture)
    (x : BatchRenderTexture) : Prop :=
  x = BatchRenderTexture.Nothing ∨ x = lastOr c l

theorem compatible_with_nothing_left (b : BatchRenderTexture) :
    BatchRenderTexture.Nothing.compatible_with b = true := by
  unfold BatchRenderTexture.compatible_with
  simp

theorem transCount_cons (c t : BatchRenderTexture) (ts : List BatchRenderTexture) :
    transCount c (t :: ts) =
      (if c.compatible_with t then 0 else 1) + transCount t ts := rfl

theorem transCount_nothing_le (y : BatchRenderTexture)
    (l : List BatchRenderTexture) :
    transCount BatchRenderTexture.Nothing l ≤ transCount y l := by
  cases l with
  | nil => exact Nat.le_refl 0
  | cons t ts =>
    rw [transCount_cons, transCount_cons, compatible_with_nothing_left]
    simp only [if_true]
    omega

theorem lastOr_append (c : BatchRenderTexture) (l1 l2 : List BatchRenderTexture) :
    lastOr c (l1 ++ l2) = lastOr (lastOr c l1) l2 := by
  induction l1 generalizing c with
  | nil => rfl
  | cons a l1 ih =>
    unfold lastOr
    rw [List.cons_append, List.getLastD_cons, List.getLastD_cons]
    exact ih a

theorem lastOr_ne_nil (c c' : BatchRenderTexture) {l : List BatchRenderTexture}
    (h : l ≠ []) : lastOr c l = lastOr c' l := by
  unfold lastOr
  rw [List.getLastD_eq_getLast?, List.getLastD_eq_getLast?]
  cases hg : l.getLast? with
  | none => exact absurd (List.getLast?_eq_none_iff.mp hg) h
  | some a => rfl

theorem transCount_append (c : BatchRenderTexture) (l1 l2 : List BatchRenderTexture) :
    transCount c (l1 ++ l2) = transCount c l1 + transCount (lastOr c l1) l2 := by
  induction l1 generalizing c with
  | nil => simp [transCount, lastOr, List.getLastD]
  | cons a l1 ih =>
    rw [List.cons_append, transCount_cons, transCount_cons, ih a]
    unfold lastOr
    rw [List.getLastD_cons]
    omega

theorem texEnd_trans {c x y : BatchRenderTexture}
    {l1 l2 : List BatchRenderTexture} (h1 : texEnd c l1 x) (h2 : texEnd x l2 y) :
    texEnd c (l1 ++ l2) y := by
  unfold texEnd at *
  rw [lastOr_append]
  rcases h2 with rfl | rfl
  · exact Or.inl rfl
  · rcases h1 with rfl | rfl
    · by_cases hnil : l2 = []
      · subst hnil
        exact Or.inl rfl
      · exact Or.inr (lastOr_ne_nil _ _ hnil)
    · exact Or.inr rfl

theorem transCount_mono_of_texEnd {c x : BatchRenderTexture}
    {l : List BatchRenderTexture} (h : texEnd c l x)
    (l2 : List BatchRenderTexture) :
    transCount x l2 ≤ transCount (lastOr c l) l2 := by
  rcases h with rfl | rfl
  · exact transCount_nothing_le _ l2
  · exact Nat.le_refl _

namespace MultiBatch

theorem performRender_flushes (cfg : AssetConfig) (s : MBState) :
    (performRender cfg s).flushes = s.flushes + 1 := by
  obtain ⟨td, bd, bt, tr, fl⟩ := s
  unfold performRender
  by_cases htd : td = [] <;> cases bt <;>
    simp only [htd, if_true, if_false, ite_true, ite_false]
  all_goals split
  all_goals try split
  all_goals simp

theorem performRender_text (cfg : AssetConfig) (s : MBState) :
    (performRender cfg s).text_render_data = [] := by
  obtain ⟨td, bd, bt, tr, fl⟩ := s
  unfold performRender
  by_cases htd : td = [] <;> cases bt <;>
    simp only [htd, if_true, if_false, ite_true, ite_false]
  all_goals split
  all_goals try split
  all_goals simp [htd]

theorem performRender_trace (cfg : AssetConfig) (s : MBState) :
    ∃ t, (performRender cfg s).trace = s.trace ++ t := by
  obtain ⟨td, bd, bt, tr, fl⟩ := s
  unfold performRender
  by_cases htd : td = [] <;> cases bt <;>
    simp only [htd, if_true, if_false, ite_true, ite_false]
  all_goals split
  all_goals try split
  all_goals simp

theorem performRender_tex (cfg : AssetConfig) (s : MBState) :
    (performRender cfg s).batch_render_texture = s.batch_render_texture ∨
      (performRender cfg s).batch_render_texture = BatchRenderTexture.Nothing := by
  obtain ⟨td, bd, bt, tr, fl⟩ := s
  unfold performRender
  by_cases htd : td = [] <;> cases bt <;>
    simp only [htd, if_true, if_false, ite_true, ite_false]
  all_goals split
  all_goals try split
  all_goals simp

theorem performRender_shape_le (cfg : AssetConfig) (s : MBState) :
    countShapeDraws (performRender cfg s).trace ≤ countShapeDraws s.trace + 1 := by
  obtain ⟨td, bd, bt, tr, fl⟩ := s
  unfold performRender
  by_cases htd : td = [] <;> cases bt <;>
    simp only [htd, if_true, if_false, ite_true, ite_false]
  all_goals split
  all_goals try split
  all_goals simp [countShapeDraws, List.countP_append]

theorem performRender_textdraw_le (cfg : AssetConfig) (s : MBState) :
    countTextDraws (performRender cfg s).trace ≤ countTextDraws s.trace + 1 := by
  obtain ⟨td, bd, bt, tr, fl⟩ := s
  unfold performRender
  by_cases htd : td = [] <;> cases bt <;>
    simp only [htd, if_true, if_false, ite_true, ite_false]
  all_goals split
  all_goals try split
  all_goals simp [countTextDraws, List.countP_append]

theorem performRender_drain (cfg : AssetConfig) (hcfg : cfg.allLoaded)
    (s : MBState) (hinv : MBInv s) :
    (performRender cfg s).text_render_data = [] ∧
      (performRender cfg s).batch_render_data = [] := by
  refine ⟨performRender_text cfg s, ?_⟩
  obtain ⟨td, bd, bt, tr, fl⟩ := s
  by_cases hbd : bd = []
  · subst hbd
    unfold performRender
    by_cases htd : td = [] <;> cases bt <;>
      simp [htd]
  · cases bt with
    | Nothing => exact absurd rfl (hinv hbd)
    | Texture t =>
      unfold performRender
      by_cases htd : td = [] <;>
        simp [htd, hbd, hcfg.1 t]
    | PartitionedTexture t =>
      unfold performRender
      by_cases htd : td = [] <;>
        simp [htd, hbd, hcfg.2 t]

theorem performRender_inv (cfg : AssetConfig) (hcfg : cfg.allLoaded)
    (s : MBState) (hinv : MBInv s) : MBInv (performRender cfg s) := by
  intro hne
  exact absurd (performRender_drain cfg hcfg s hinv).2 hne

/-- The induction bundle for `incremental_render`: starting from state `s`
and ending in state `s'` after a subtree with `lb` layer boundaries and
image-texture list `imgs`, the number of flushes grows by at most
`lb + transCount`, the committed texture is the sentinel or the last image
texture, the trace only grows, draw-call counts stay below the flush count,
and (under `allLoaded`) the pending-shape invariant is preserved. -/
def IncProp (cfg : AssetConfig) (s s' : MBState) (lb : Nat)
    (imgs : List BatchRenderTexture) : Prop :=
  s'.flushes ≤ s.flushes + lb + transCount s.batch_render_texture imgs ∧
  texEnd s.batch_render_texture imgs s'.batch_render_texture ∧
  (∃ t, s'.trace = s.trace ++ t) ∧
  (countShapeDraws s.trace ≤ s.flushes →
    countShapeDraws s'.trace ≤ s'.flushes) ∧
  (countTextDraws s.trace ≤ s.flushes →
    countTextDraws s'.trace ≤ s'.flushes) ∧
  (cfg.allLoaded → MBInv s → MBInv s')

theorem IncProp.refl (cfg : AssetConfig) (s : MBState) : IncProp cfg s s 0 [] := by
  refine ⟨by simp [transCount], ?_, ⟨[], by simp⟩,
    fun h => h, fun h => h, fun _ h => h⟩
  unfold texEnd lastOr
  simp

theorem IncProp.weaken {cfg : AssetConfig} {s s' : MBState} {lb lb' : Nat}
    {l : List BatchRenderTexture} (h : IncProp cfg s s' lb l) (hle : lb ≤ lb') :
    IncProp cfg s s' lb' l := by
  obtain ⟨hf, ht, htr, hs, hx, hi⟩ := h
  exact ⟨by omega, ht, htr, hs, hx, hi⟩

theorem IncProp.comp {cfg : AssetConfig} {s s1 s2 : MBState} {lb1 lb2 : Nat}
    {l1 l2 : List BatchRenderTexture}
    (h1 : IncProp cfg s s1 lb1 l1) (h2 : IncProp cfg s1 s2 lb2 l2) :
    IncProp cfg s s2 (lb1 + lb2) (l1 ++ l2) := by
  obtain ⟨hf1, ht1, ⟨t1, htr1⟩, hs1, hx1, hi1⟩ := h1
  obtain ⟨hf2, ht2, ⟨t2, htr2⟩, hs2, hx2, hi2⟩ := h2
  refine ⟨?_, texEnd_trans ht1 ht2,
    ⟨t1 ++ t2, by rw [htr2, htr1, List.append_assoc]⟩,
    fun h => hs2 (hs1 h), fun h => hx2 (hx1 h), fun ha hi => hi2 ha (hi1 ha hi)⟩
  have hmono := transCount_mono_of_texEnd ht1 l2
  rw [transCount_append]
  omega

theorem IncProp.perform (cfg : AssetConfig) (s : MBState) :
    IncProp cfg s (performRender cfg s) 1 [] := by
  have hfl := performRender_flushes cfg s
  refine ⟨by simp [transCount]; omega, ?_, performRender_trace cfg s, ?_, ?_, ?_⟩
  · rcases performRender_tex cfg s with h | h
    · exact Or.inr h
    · exact Or.inl h
  · intro h
    have := performRender_shape_le cfg s
    omega
  · intro h
    have := performRender_textdraw_le cfg s
    omega
  · intro ha hi
    exact performRender_inv cfg ha s hi

theorem imageCommitCompat (cfg : AssetConfig) (s : MBState)
    (newTex : BatchRenderTexture) (hne : newTex ≠ BatchRenderTexture.Nothing)
    (rends : List Renderable) :
    IncProp cfg s
      { s with batch_render_texture := newTex,
               batch_render_data := s.batch_render_data ++ rends }
      0 [newTex] := by
  refine ⟨?_, ?_, ⟨[], by simp⟩, fun h => h, fun h => h, fun _ _ _ => hne⟩
  · exact Nat.le_add_right _ _
  · unfold texEnd lastOr
    simp

theorem imageCommitFlush (cfg : AssetConfig) (s : MBState)
    (newTex : BatchRenderTexture) (hne : newTex ≠ BatchRenderTexture.Nothing)
    (hc : s.batch_render_texture.compatible_with newTex = false)
    (rends : List Renderable) :
    IncProp cfg s
      { (performRender cfg s) with
          batch_render_texture := newTex,
          batch_render_data := (performRender cfg s).batch_render_data ++ rends }
      0 [newTex] := by
  have hfl := performRender_flushes cfg s
  refine ⟨?_, ?_, ?_, ?_, ?_, fun _ _ _ => hne⟩
  · show (performRender cfg s).flushes ≤ _
    rw [transCount_cons, hc]
    simp only [Bool.false_eq_true, if_false, transCount]
    omega
  · unfold texEnd lastOr
    simp
  · obtain ⟨t, ht⟩ := performRender_trace cfg s
    exact ⟨t, ht⟩
  · intro h
    have := performRender_shape_le cfg s
    show countShapeDraws (performRender cfg s).trace ≤ (performRender cfg s).flushes
    omega
  · intro h
    have := performRender_textdraw_le cfg s
    show countTextDraws (performRender cfg s).trace ≤ (performRender cfg s).flushes
    omega

mutual

theorem incR_main (cfg : AssetConfig) (r : MultiRenderable) (s : MBState) :
    IncProp cfg s (incremental_render cfg s r) (layerBoundaries r) (imgTexes r) := by
  cases r with
  | Nothing =>
    simp only [incremental_render, layerBoundaries, imgTexes]
    exact IncProp.refl cfg s
  | Layered ls =>
    cases ls with
    | nil =>
      simp only [incremental_render, layerBoundaries, layerBoundariesList,
        imgTexes, imgTexesList, List.length_nil]
      exact IncProp.refl cfg s
    | cons first rest =>
      have h1 := incR_main cfg first s
      have h2 := layersRest_main cfg rest (incremental_render cfg s first)
      have hc := h1.comp h2
      simp only [incremental_render]
      simp only [layerBoundaries, layerBoundariesList, imgTexes, imgTexesList,
        List.length_cons]
      exact hc.weaken (by omega)
  | Adjacent ls =>
    have h := adj_main cfg ls s
    simp only [incremental_render, layerBoundaries, imgTexes]
    exact h
  | Text word offset =>
    simp only [incremental_render, layerBoundaries, imgTexes]
    refine ⟨?_, Or.inr ?_, ⟨[], by simp⟩, fun h => h, fun h => h, fun _ hi => ?_⟩
    · simp [transCount]
    · simp [lastOr]
    · intro h
      exact hi h
  | Image texture renderables =>
    simp only [incremental_render, layerBoundaries, imgTexes]
    by_cases hc : s.batch_render_texture.compatible_with
        (BatchRenderTexture.Texture texture) = true <;>
      simp only [hc, if_true, if_false, ite_true, ite_false]
    · exact imageCommitCompat cfg s (BatchRenderTexture.Texture texture)
        (by simp) renderables
    · exact imageCommitFlush cfg s (BatchRenderTexture.Texture texture)
        (by simp) (by simp [hc]) renderables
  | ImageRegion texture renderables =>
    simp only [incremental_render, layerBoundaries, imgTexes]
    by_cases hc : s.batch_render_texture.compatible_with
        (BatchRenderTexture.PartitionedTexture texture.partitioned_texture) = true <;>
      simp only [hc, if_true, if_false, ite_true, ite_false]
    · exact imageCommitCompat cfg s
        (BatchRenderTexture.PartitionedTexture texture.partitioned_texture)
        (by simp) renderables
    · exact imageCommitFlush cfg s
        (BatchRenderTexture.PartitionedTexture texture.partitioned_texture)
        (by simp) (by simp [hc]) renderables

theorem layersRest_main (cfg : AssetConfig) (ls : List MultiRenderable)
    (s : MBState) :
    IncProp cfg s (renderLayersRest cfg s ls)
      (ls.length + layerBoundariesList ls) (imgTexesList ls) := by
  cases ls with
  | nil =>
    simp only [renderLayersRest, layerBoundariesList, imgTexesList, List.length_nil]
    exact IncProp.refl cfg s
  | cons layer rest =>
    have h0 := IncProp.perform cfg s
    have h1 := incR_main cfg layer (performRender cfg s)
    have h2 := layersRest_main cfg rest
      (incremental_render cfg (performRender cfg s) layer)
    have hc := (h0.comp h1).comp h2
    simp only [renderLayersRest]
    simp only [layerBoundariesList, imgTexesList, List.length_cons]
    simp only [List.nil_append] at hc
    exact hc.weaken (by omega)

theorem adj_main (cfg : AssetConfig) (ls : List MultiRenderable) (s : MBState) :
    IncProp cfg s (renderAdjacent cfg s ls) (layerBoundariesList ls)
      (imgTexesList ls) := by
  cases ls with
  | nil =>
    simp only [renderAdjacent, layerBoundariesList, imgTexesList]
    exact IncProp.refl cfg s
  | cons item rest =>
    have h1 := incR_main cfg item s
    have h2 := adj_main cfg rest (incremental_render cfg s item)
    have hc := h1.comp h2
    simp only [renderAdjacent]
    simp only [layerBoundariesList, imgTexesList]
    exact hc

end

theorem render_shape_le (cfg : AssetConfig) (r : MultiRenderable) :
    countShapeDraws (render cfg r).trace ≤
      transCount BatchRenderTexture.Nothing (imgTexes r) + 1 + layerBoundaries r := by
  obtain ⟨hf, _, _, hs, _, _⟩ := incR_main cfg r initState
  have hs1 := hs (by simp [initState, countShapeDraws])
  have hle := performRender_shape_le cfg (incremental_render cfg initState r)
  have h1 : initState.flushes = 0 := rfl
  have h2 : initState.batch_render_texture = BatchRenderTexture.Nothing := rfl
  rw [h1, h2] at hf
  unfold render
  omega

theorem render_text_le (cfg : AssetConfig) (r : MultiRenderable) :
    countTextDraws (render cfg r).trace ≤
      transCount BatchRenderTexture.Nothing (imgTexes r) + 1 + layerBoundaries r := by
  obtain ⟨hf, _, _, _, hx, _⟩ := incR_main cfg r initState
  have hx1 := hx (by simp [initState, countTextDraws])
  have hle := performRender_textdraw_le cfg (incremental_render cfg initState r)
  have h1 : initState.flushes = 0 := rfl
  have h2 : initState.batch_render_texture = BatchRenderTexture.Nothing := rfl
  rw [h1, h2] at hf
  unfold render
  omega

end MultiBatch

/-- A configuration in which every texture asset is loaded. -/
def cfgAllLoaded : AssetConfig := ⟨fun _ => true, fun _ => true⟩

theorem cfgAllLoaded_allLoaded : cfgAllLoaded.allLoaded :=
  ⟨fun _ => rfl, fun _ => rfl⟩

/-- The tree used to refute the text-draw part of claim C1: one layer
segment (no `Layered` node at all) containing text both before and after a
texture-incompatibility transition. -/
def claimC1tree : MultiRenderable :=
  .Adjacent [.Text 0 (0, 0), .Image 0 [.Empty], .Image 1 [.Empty], .Text 1 (0, 0)]

/-- Counterexample to claim C1 as stated: `claimC1tree` contains no layer
boundary, hence exactly one layer segment (which contains text), so the
claim bounds the number of text draw calls by one; but the
texture-incompatibility flush between the two `Image` nodes also drains the
pending text, so `MultiBatch::render` issues two text draw calls. -/
theorem claim_C1_counterexample :
    layerBoundaries claimC1tree = 0 ∧
    countTextDraws (MultiBatch.render cfgAllLoaded claimC1tree).trace = 2 ∧
    ¬ countTextDraws (MultiBatch.render cfgAllLoaded claimC1tree).trace ≤ 1 := by
  have htrace : (MultiBatch.render cfgAllLoaded claimC1tree).trace =
      [MBEvent.textDraw [((0, 0), 0)],
       MBEvent.shapeDraw (BatchRenderTexture.Texture 0) [Renderable.Empty],
       MBEvent.textDraw [((0, 0), 1)],
       MBEvent.shapeDraw (BatchRenderTexture.Texture 1) [Renderable.Empty]] := by
    simp [claimC1tree, MultiBatch.render, MultiBatch.incremental_render,
      MultiBatch.renderAdjacent, MultiBatch.performRender, MultiBatch.initState,
      BatchRenderTexture.compatible_with, cfgAllLoaded]
  refine ⟨?_, ?_, ?_⟩
  · simp [claimC1tree, layerBoundaries, layerBoundariesList]
  · rw [htrace]
    rfl
  · rw [htrace]
    decide

/-- Claim C1, amended: for every `MultiRenderable` tree with `T`
texture-compatibility transitions among its `Image`/`ImageRegion` nodes in
depth-first order (two textures compatible exactly when they are equal or
either is the `Nothing` sentinel) and `L` layer boundaries introduced by
`Layered` nodes, `MultiBatch::render` issues at most `T + 1` shape draw
calls plus one per layer boundary, and also at most `T + 1` text draw
calls plus one per layer boundary (one per flush with pending text):
text is drained at every flush, including texture-incompatibility flushes,
so text draws are bounded by the number of flushes, not by layer
segments. -/
theorem claim_C1_amended (cfg : AssetConfig) (r : MultiRenderable) :
    countShapeDraws (MultiBatch.render cfg r).trace ≤
      transCount BatchRenderTexture.Nothing (imgTexes r) + 1 + layerBoundaries r ∧
    countTextDraws (MultiBatch.render cfg r).trace ≤
      transCount BatchRenderTexture.Nothing (imgTexes r) + 1 + layerBoundaries r :=
  ⟨MultiBatch.render_shape_le cfg r, MultiBatch.render_text_le cfg r⟩

/-- `e` is a shape draw call whose shape list contains `r`. -/
def drawUses (e : MBEvent) (r : Renderable) : Bool :=
  match e with
  | .shapeDraw _ shapes => decide (r ∈ shapes)
  | _ => false

/-- Every draw call using a renderable of `as` occurs in the trace strictly
before every draw call using a renderable of `bs`. -/
def drawsOrdered (trace : List MBEvent) (as bs : List Renderable) : Prop :=
  ∀ i j, i < trace.length → j < trace.length →
    (∃ a ∈ as, drawUses (trace.getD i (.textDraw [])) a = true) →
    (∃ b ∈ bs, drawUses (trace.getD j (.textDraw [])) b = true) → i < j

/-- Layer 1's shape of the C3 counterexample. -/
def claimC3rA : Renderable :=
  .Triangle ⟨(0, 0, 0), (0, 0, 0, 0), (0, 0)⟩ ⟨(0, 0, 0), (0, 0, 0, 0), (0, 0)⟩
    ⟨(0, 0, 0), (0, 0, 0, 0), (0, 0)⟩

/-- Layer 2's shape of the C3 counterexample. -/
def claimC3rB : Renderable :=
  .Quadrilateral ⟨(0, 0, 0), (0, 0, 0, 0), (0, 0)⟩ ⟨(0, 0, 0), (0, 0, 0, 0), (0, 0)⟩
    ⟨(0, 0, 0), (0, 0, 0, 0), (0, 0)⟩ ⟨(0, 0, 0), (0, 0, 0, 0), (0, 0)⟩

/-- Two layers: layer 1 draws `claimC3rA` with texture 0 (not yet loaded),
layer 2 draws `claimC3rB` with texture 1 (loaded). -/
def claimC3tree : MultiRenderable :=
  .Layered [.Image 0 [claimC3rA], .Image 1 [claimC3rB]]

/-- Texture 0 is not loaded, texture 1 is. -/
def claimC3cfg : AssetConfig := ⟨fun t => decide (t = 1), fun _ => true⟩

/-- Counterexample to claim C3 as stated: the forced flush between the two
layers does not drain the pending shape list when the committed texture is
not loaded — layer 1's renderable stays pending and is submitted in the
same (single) draw call as layer 2's renderable, so no draw of layer 1 is
submitted strictly before layer 2's draw. -/
theorem claim_C3_counterexample :
    (MultiBatch.render claimC3cfg claimC3tree).trace =
      [MBEvent.shapeDraw (BatchRenderTexture.Texture 1) [claimC3rA, claimC3rB]] ∧
    ¬ drawsOrdered (MultiBatch.render claimC3cfg claimC3tree).trace
        [claimC3rA] [claimC3rB] := by
  have htrace : (MultiBatch.render claimC3cfg claimC3tree).trace =
      [MBEvent.shapeDraw (BatchRenderTexture.Texture 1) [claimC3rA, claimC3rB]] := by
    simp [claimC3tree, MultiBatch.render, MultiBatch.incremental_render,
      MultiBatch.renderLayersRest, MultiBatch.performRender, MultiBatch.initState,
      BatchRenderTexture.compatible_with, claimC3cfg]
  refine ⟨htrace, ?_⟩
  intro h
  have h00 := h 0 0 (by rw [htrace]; decide) (by rw [htrace]; decide)
    (by rw [htrace]; exact ⟨claimC3rA, by decide⟩)
    (by rw [htrace]; exact ⟨claimC3rB, by decide⟩)
  exact absurd h00 (Nat.lt_irrefl 0)

/-- Claim C3, amended: for `Layered [A, B]` rendered by `MultiBatch`, a
flush is forced between the two children; the flush always drains the
pending text list, and drains the pending shape list provided every
texture is loaded (an unloaded committed texture leaves the pending shapes
in place).  Under the all-loaded proviso the whole trace decomposes as the
trace present after A's boundary flush followed by B's events, so every
draw belonging to layer A is submitted strictly before any draw of layer
B; `Adjacent` children are traversed in order into the same pending state
with no forced flush between siblings. -/
theorem claim_C3_amended (cfg : AssetConfig) (hcfg : cfg.allLoaded)
    (a b : MultiRenderable) :
    MultiBatch.render cfg (.Layered [a, b]) =
      MultiBatch.performRender cfg
        (MultiBatch.incremental_render cfg
          (MultiBatch.performRender cfg
            (MultiBatch.incremental_render cfg MultiBatch.initState a)) b) ∧
    (MultiBatch.performRender cfg
        (MultiBatch.incremental_render cfg MultiBatch.initState a)).text_render_data
      = [] ∧
    (MultiBatch.performRender cfg
        (MultiBatch.incremental_render cfg MultiBatch.initState a)).batch_render_data
      = [] ∧
    (∃ t, (MultiBatch.render cfg (.Layered [a, b])).trace =
      (MultiBatch.performRender cfg
        (MultiBatch.incremental_render cfg MultiBatch.initState a)).trace ++ t) ∧
    (∀ (s : MBState) (x : MultiRenderable) (xs : List MultiRenderable),
      MultiBatch.incremental_render cfg s (.Adjacent (x :: xs)) =
        MultiBatch.renderAdjacent cfg (MultiBatch.incremental_render cfg s x) xs) := by
  have hinv0 : MBInv MultiBatch.initState := by
    intro h
    exact absurd rfl h
  obtain ⟨_, _, _, _, _, hinvA⟩ := MultiBatch.incR_main cfg a MultiBatch.initState
  have hdrain := MultiBatch.performRender_drain cfg hcfg
    (MultiBatch.incremental_render cfg MultiBatch.initState a) (hinvA hcfg hinv0)
  have hstep : MultiBatch.render cfg (.Layered [a, b]) =
      MultiBatch.performRender cfg
        (MultiBatch.incremental_render cfg
          (MultiBatch.performRender cfg
            (MultiBatch.incremental_render cfg MultiBatch.initState a)) b) := by
    simp only [MultiBatch.render, MultiBatch.incremental_render,
      MultiBatch.renderLayersRest]
  refine ⟨hstep, hdrain.1, hdrain.2, ?_, ?_⟩
  · obtain ⟨t1, ht1⟩ := MultiBatch.incR_main cfg b
      (MultiBatch.performRender cfg
        (MultiBatch.incremental_render cfg MultiBatch.initState a)) |>.2.2.1
    obtain ⟨t2, ht2⟩ := MultiBatch.performRender_trace cfg
      (MultiBatch.incremental_render cfg
        (MultiBatch.performRender cfg
          (MultiBatch.incremental_render cfg MultiBatch.initState a)) b)
    refine ⟨t1 ++ t2, ?_⟩
    rw [hstep, ht2, ht1, List.append_assoc]
  · intro s x xs
    simp only [MultiBatch.incremental_render, MultiBatch.renderAdjacent]

/-- Witness for the amended C3 at a concrete all-loaded configuration and
two concrete layers. -/
theorem claim_C3_amended_witness :
    MultiBatch.render cfgAllLoaded (.Layered [.Nothing, .Nothing]) =
      MultiBatch.performRender cfgAllLoaded
        (MultiBatch.incremental_render cfgAllLoaded
          (MultiBatch.performRender cfgAllLoaded
            (MultiBatch.incremental_render cfgAllLoaded MultiBatch.initState .Nothing))
          .Nothing) ∧
    (MultiBatch.performRender cfgAllLoaded
        (MultiBatch.incremental_render cfgAllLoaded MultiBatch.initState
          .Nothing)).text_render_data = [] ∧
    (MultiBatch.performRender cfgAllLoaded
        (MultiBatch.incremental_render cfgAllLoaded MultiBatch.initState
          .Nothing)).batch_render_data = [] ∧
    (∃ t, (MultiBatch.render cfgAllLoaded (.Layered [.Nothing, .Nothing])).trace =
      (MultiBatch.performRender cfgAllLoaded
        (MultiBatch.incremental_render cfgAllLoaded MultiBatch.initState
          .Nothing)).trace ++ t) ∧
    (∀ (s : MBState) (x : MultiRenderable) (xs : List MultiRenderable),
      MultiBatch.incremental_render cfgAllLoaded s (.Adjacent (x :: xs)) =
        MultiBatch.renderAdjacent cfgAllLoaded
          (MultiBatch.incremental_render cfgAllLoaded s x) xs) :=
  claim_C3_amended cfgAllLoaded cfgAllLoaded_allLoaded .Nothing .Nothing

/-- The state used to refute claim C5: one pending shape committed to
texture 0, no pending text. -/
def claimC5state : MBState :=
  { text_render_data := [], batch_render_data := [.Empty],
    batch_render_texture := .Texture 0, trace := [], flushes := 0 }

/-- A configuration in which no texture asset is loaded. -/
def claimC5cfg : AssetConfig := ⟨fun _ => false, fun _ => false⟩

/-- Counterexample to claim C5 as stated: flushing a non-empty pending
shape list whose committed texture has not loaded leaves the pending-shape
list unchanged (not cleared): `take(self.batch_render_data)` only runs
inside the `if_loaded` closure. The committed-texture marker is cleared
and no draw call is issued, but the shapes are not dropped. -/
theorem claim_C5_counterexample :
    (MultiBatch.performRender claimC5cfg claimC5state).batch_render_data
        = [Renderable.Empty] ∧
    (MultiBatch.performRender claimC5cfg claimC5state).batch_render_data ≠ [] ∧
    (MultiBatch.performRender claimC5cfg claimC5state).batch_render_texture
        = BatchRenderTexture.Nothing ∧
    (MultiBatch.performRender claimC5cfg claimC5state).trace = [] := by
  refine ⟨?_, ?_, ?_, ?_⟩ <;>
    simp [MultiBatch.performRender, claimC5cfg, claimC5state]

/-- The loading status of a committed `BatchRenderTexture`. -/
def texLoaded (cfg : AssetConfig) : BatchRenderTexture → Bool
  | .Nothing => false
  | .Texture t => cfg.textureLoaded t
  | .PartitionedTexture t => cfg.partitionedLoaded t

/-- Claim C5, amended: when `MultiBatch`'s flush runs with a non-empty
pending shape list whose committed texture asset has not finished loading,
no shape draw call is issued and the committed-texture marker is cleared,
but the pending shapes are not dropped: they remain in the pending list
(and are submitted by a later flush under that flush's committed texture);
with no pending text the flush records no event at all. -/
theorem claim_C5_amended (cfg : AssetConfig) (s : MBState)
    (hne : s.batch_render_data ≠ [])
    (htex : s.batch_render_texture ≠ BatchRenderTexture.Nothing)
    (hload : texLoaded cfg s.batch_render_texture = false) :
    (MultiBatch.performRender cfg s).batch_render_data = s.batch_render_data ∧
    (MultiBatch.performRender cfg s).batch_render_texture
        = BatchRenderTexture.Nothing ∧
    countShapeDraws (MultiBatch.performRender cfg s).trace
        = countShapeDraws s.trace ∧
    (s.text_render_data = [] →
      (MultiBatch.performRender cfg s).trace = s.trace) := by
  obtain ⟨td, bd, bt, tr, fl⟩ := s
  cases bt with
  | Nothing => exact absurd rfl htex
  | Texture t =>
    simp only [texLoaded] at hload
    unfold MultiBatch.performRender
    by_cases htd : td = [] <;>
      simp [htd, hne, hload, countShapeDraws, List.countP_append]
  | PartitionedTexture t =>
    simp only [texLoaded] at hload
    unfold MultiBatch.performRender
    by_cases htd : td = [] <;>
      simp [htd, hne, hload, countShapeDraws, List.countP_append]

/-- Witness for the amended C5 at the concrete unloaded-texture state. -/
theorem claim_C5_amended_witness :
    (MultiBatch.performRender claimC5cfg claimC5state).batch_render_data
        = claimC5state.batch_render_data ∧
    (MultiBatch.performRender claimC5cfg claimC5state).batch_render_texture
        = BatchRenderTexture.Nothing ∧
    countShapeDraws (MultiBatch.performRender claimC5cfg claimC5state).trace
        = countShapeDraws claimC5state.trace ∧
    (claimC5state.text_render_data = [] →
      (MultiBatch.performRender claimC5cfg claimC5state).trace
        = claimC5state.trace) :=
  claim_C5_amended claimC5cfg claimC5state (by decide) (by decide) (by decide)

/-! ## Rich text builder and typesetter (`ui/text.rs`)

Fonts are external assets; a `Font` is modelled by the query functions the
typesetter uses (`rusttype::Font` methods).  An asset that failed to load
or was dropped behaves, for every function modelled here, like a font with
no glyphs, so load status is not modelled separately.  `f32` metrics are
exact rationals. -/

/-- The observable behaviour of a loaded `rusttype::Font`:
`glyph` returns the glyph id for a character (`0` means "not present"),
`advance` the horizontal advance of a scaled glyph, `pair_kerning` the
kerning between two scaled glyphs, `ascent`/`descent`/`line_gap` the
vertical metrics at a scale, and `bb_max_x` the `pixel_bounding_box`
right edge of a scaled glyph positioned at an x coordinate (`none` for
empty outlines such as whitespace). -/
structure Font where
  glyph : Char → Nat
  advance : ℚ → Nat → ℚ
  pair_kerning : ℚ → Nat → Nat → ℚ
  ascent : ℚ → ℚ
  descent : ℚ → ℚ
  line_gap : ℚ → ℚ
  bb_max_x : ℚ → Nat → ℚ → Option ℤ

/-- Model of `ui/text.rs::FontFace` (the debug `name` field is omitted). -/
structure FontFace where
  id : Nat
  regular : Font
  bold : Option Font
  italic : Option Font
  bold_italic : Option Font

/-- Model of `ui/text.rs::FontFamily`. -/
structure FontFamily where
  faces : List FontFace

/-- Model of `ui/text.rs::FontSize`. -/
inductive FontSize where
  | H1
  | H2
  | H3
  | Text
deriving DecidableEq

/-- Model of `ui/text.rs::FontEmphasis`. -/
inductive FontEmphasis where
  | Regular
  | Bold
  | Italic
  | BoldItalic
deriving DecidableEq

/-- Model of `ui/colour.rs::Colour`. -/
structure Colour where
  r : ℚ
  g : ℚ
  b : ℚ
  a : ℚ
deriving DecidableEq

/-- `Colour::default()` (opaque white). -/
def Colour.default : Colour := ⟨1, 1, 1, 1⟩

/-- Model of `ui/text.rs::RichTextStyle`. -/
structure RichTextStyle where
  font_family : FontFamily
  size : FontSize
  emphasis : FontEmphasis
  colour : Colour

/-- `RichTextStyle::default(font_family)`. -/
def RichTextStyle.default (font_family : FontFamily) : RichTextStyle :=
  { font_family := font_family, size := .Text, emphasis := .Regular,
    colour := Colour.default }

/-- Model of `ui/text.rs::RichTextSegment`. -/
structure RichTextSegment where
  text : List Char
  style : RichTextStyle
  glue_to_previous : Bool

/-- Index arithmetic encoding of `get_font_id`: the global registry issues
one stable id per `(font face id, emphasis, size)` specifier; the
injective encoding below models exactly that (same specifier, same id;
distinct specifiers, distinct ids). -/
def emphasisIdx : FontEmphasis → Nat
  | .Regular => 0
  | .Bold => 1
  | .Italic => 2
  | .BoldItalic => 3

def fontSizeIdx : FontSize → Nat
  | .H1 => 0
  | .H2 => 1
  | .H3 => 2
  | .Text => 3

/-- Model of `ui/text.rs::get_font_id`. -/
def get_font_id (face : FontFace) (emphasis : FontEmphasis) (size : FontSize) :
    Nat :=
  face.id * 16 + emphasisIdx emphasis * 4 + fontSizeIdx size

/-- The per-face-list loop of `get_font_for_character`: for each face, try
(in order) the bold-italic, bold, italic and regular variants that the
requested emphasis allows, returning the first variant that has a non-zero
glyph id for `c`, together with its font id and font; fall through to the
next face otherwise.  The returned `Font` is the one the registry maps the
returned id to (the source looks it up again in `FONT_ID_TO_FONT_MAP`). -/
def gffcFaces : List FontFace → FontEmphasis → FontSize → Char →
    Option (Nat × Font × Nat)
  | [], _, _, _ => none
  | face :: rest, emphasis, size, c =>
    match (if emphasis = FontEmphasis.BoldItalic then
             match face.bold_italic with
             | some font =>
               if font.glyph c ≠ 0 then
                 some (get_font_id face .BoldItalic size, font, font.glyph c)
               else none
             | none => none
           else none) with
    | some r => some r
    | none =>
      match (if emphasis = FontEmphasis.Bold ∨ emphasis = FontEmphasis.BoldItalic then
               match face.bold with
               | some font =>
                 if font.glyph c ≠ 0 then
                   some (get_font_id face .Bold size, font, font.glyph c)
                 else none
               | none => none
             else none) with
      | some r => some r
      | none =>
        match (if emphasis = FontEmphasis.Italic ∨ emphasis = FontEmphasis.BoldItalic then
                 match face.italic with
                 | some font =>
                   if font.glyph c ≠ 0 then
                     some (get_font_id face .Italic size, font, font.glyph c)
                   else none
                 | none => none
               else none) with
        | some r => some r
        | none =>
          if face.regular.glyph c ≠ 0 then
            some (get_font_id face .Regular size, face.regular, face.regular.glyph c)
          else gffcFaces rest emphasis size c

/-- Model of `ui/text.rs::get_font_for_character`. -/
def get_font_for_character (font_family : FontFamily) (emphasis : FontEmphasis)
    (size : FontSize) (c : Char) : Option (Nat × Font × Nat) :=
  gffcFaces font_family.faces emphasis size c

/-- A `rusttype::PositionedGlyph`: its font, glyph id, scale, position. -/
structure PositionedGlyph where
  font_data : Font
  glyph_id : Nat
  scale : ℚ
  pos : ℚ × ℚ

/-- Model of `ui/text.rs::RenderableGlyph`. -/
structure RenderableGlyph where
  font : Nat
  colour : Colour
  glyph : PositionedGlyph

/-- Model of `ui/text.rs::TypesetText`. -/
structure TypesetText where
  size : Nat × Nat
  glyphs : List RenderableGlyph
  cached_renderables : Option (List Renderable)
  cache_generation : Nat

/-- Model of `ui/text.rs::RichTextContents` (the typeset output lives
behind the same lock; the `RwLock`/`Arc` plumbing is the identity here). -/
structure RichTextContents where
  paragraphs : List (List RichTextSegment)
  typeset : Option TypesetText
  current_text_id : Nat
  max_width : Option Nat

/-- Model of `RichTextContents::write`: the commit a background
typesetting task attempts when it finishes — it takes effect only when the
text id captured at builder creation still equals the current text id. -/
def RichTextContents.write (c : RichTextContents) (text_id : Nat)
    (paragraphs : List (List RichTextSegment)) (typeset : TypesetText) :
    RichTextContents :=
  if c.current_text_id = text_id then
    { c with paragraphs := paragraphs, typeset := some typeset }
  else c

/-- Model of `ui/text.rs::RichTextContentsBuilder`.  The `output`
back-pointer (an `Arc` onto the `RichText`) is represented by performing
commits through `RichTextContents.write` explicitly. -/
structure RichTextContentsBuilder where
  style : RichTextStyle
  paragraphs : List (List RichTextSegment)
  current_paragraph : List RichTextSegment
  max_width : Option Nat
  is_internal : Bool
  text_id : Nat

/-- Model of `RichText::set_text`: increment the text counter and hand out
a fresh top-level builder capturing the new id. -/
def RichText.set_text (c : RichTextContents) (font_family : FontFamily) :
    RichTextContents × RichTextContentsBuilder :=
  ({ c with current_text_id := c.current_text_id + 1 },
   { style := RichTextStyle.default font_family, paragraphs := [],
     current_paragraph := [], max_width := c.max_width, is_internal := false,
     text_id := c.current_text_id + 1 })

/-- `RichTextContentsBuilder::should_split_between`. -/
def should_split_between (left right : Char) : Bool :=
  left.isWhitespace && !right.isWhitespace

/-- The index loop of `write_maybe_glued`, phrased structurally: the
source walks `i` over `1..chars.len()` and emits the slice
`chars[word_start_index..i]` at every split point; equivalently, it splits
the character list into maximal runs at `should_split_between` boundaries.
`run` is the current slice, `prev` its last character, and only the first
run keeps the requested glue flag. -/
def writeRunsGo (style : RichTextStyle) (glue : Bool) (run : List Char)
    (prev : Char) : List Char → List RichTextSegment
  | [] => [{ text := run, style := style, glue_to_previous := glue }]
  | c :: rest =>
    if should_split_between prev c then
      { text := run, style := style, glue_to_previous := glue } ::
        writeRunsGo style false [c] c rest
    else
      writeRunsGo style glue (run ++ [c]) c rest

/-- Model of `RichTextContentsBuilder::write_maybe_glued`. -/
def RichTextContentsBuilder.write_maybe_glued (b : RichTextContentsBuilder)
    (text : List Char) (glue_to_previous : Bool) : RichTextContentsBuilder :=
  let segs :=
    match text with
    | [] => [{ text := [], style := b.style, glue_to_previous := glue_to_previous }]
    | c :: rest => writeRunsGo b.style glue_to_previous [c] c rest
  { b with current_paragraph := b.current_paragraph ++ segs }

/-- Model of `RichTextContentsBuilder::write`. -/
def RichTextContentsBuilder.write (b : RichTextContentsBuilder)
    (text : List Char) : RichTextContentsBuilder :=
  b.write_maybe_glued text false

/-- Model of `RichTextContentsBuilder::write_glued`. -/
def RichTextContentsBuilder.write_glued (b : RichTextContentsBuilder)
    (text : List Char) : RichTextContentsBuilder :=
  b.write_maybe_glued text true

/-- Model of `RichTextContentsBuilder::end_paragraph`. -/
def RichTextContentsBuilder.end_paragraph (b : RichTextContentsBuilder) :
    RichTextContentsBuilder :=
  { b with paragraphs := b.paragraphs ++ [b.current_paragraph],
           current_paragraph := [] }

/-- The child builder `RichTextContentsBuilder::internal` constructs and
passes to the `styled` closure. -/
def RichTextContentsBuilder.internalChild (b : RichTextContentsBuilder)
    (style : RichTextStyle) : RichTextContentsBuilder :=
  { style := style, paragraphs := [], current_paragraph := [],
    max_width := b.max_width, is_internal := true, text_id := b.text_id }

/-- Model of `RichTextContentsBuilder::internal`. -/
def RichTextContentsBuilder.internal (b : RichTextContentsBuilder)
    (style : RichTextStyle)
    (styled : RichTextContentsBuilder → RichTextContentsBuilder) :
    RichTextContentsBuilder :=
  let result := styled (b.internalChild style)
  let b1 := result.paragraphs.foldl
    (fun acc para =>
      RichTextContentsBuilder.end_paragraph
        { acc with current_paragraph := acc.current_paragraph ++ para })
    b
  { b1 with current_paragraph := b1.current_paragraph ++ result.current_paragraph }

/-- Model of `RichTextContentsBuilder::h1`. -/
def RichTextContentsBuilder.h1 (b : RichTextContentsBuilder)
    (styled : RichTextContentsBuilder → RichTextContentsBuilder) :
    RichTextContentsBuilder :=
  b.internal { b.style with size := FontSize.H1 } styled

/-- Model of `RichTextContentsBuilder::bold`. -/
def RichTextContentsBuilder.bold (b : RichTextContentsBuilder)
    (styled : RichTextContentsBuilder → RichTextContentsBuilder) :
    RichTextContentsBuilder :=
  b.internal
    { b.style with emphasis :=
        match b.style.emphasis with
        | .Regular | .Bold => FontEmphasis.Bold
        | .Italic | .BoldItalic => FontEmphasis.BoldItalic }
    styled

/-- Model of `RichTextContentsBuilder::italic`. -/
def RichTextContentsBuilder.italic (b : RichTextContentsBuilder)
    (styled : RichTextContentsBuilder → RichTextContentsBuilder) :
    RichTextContentsBuilder :=
  b.internal
    { b.style with emphasis :=
        match b.style.emphasis with
        | .Regular | .Italic => FontEmphasis.Italic
        | .Bold | .BoldItalic => FontEmphasis.BoldItalic }
    styled

/-- Model of `RichTextContentsBuilder::coloured`. -/
def RichTextContentsBuilder.coloured (b : RichTextContentsBuilder)
    (colour : Colour)
    (styled : RichTextContentsBuilder → RichTextContentsBuilder) :
    RichTextContentsBuilder :=
  b.internal { b.style with colour := colour } styled

/-- Model of `RichTextContentsBuilder::finish`: `none` models the
`cannot call finish on internal builders` abort; on a top-level builder it
pushes the trailing paragraph if non-empty and spawns the background
typesetting task, whose commit payload (the captured text id and the
paragraphs to typeset) is returned. -/
def RichTextContentsBuilder.finish (b : RichTextContentsBuilder) :
    Option (Nat × List (List RichTextSegment)) :=
  if b.is_internal then none
  else
    some (b.text_id,
      b.paragraphs ++ (if b.current_paragraph.isEmpty then [] else [b.current_paragraph]))

/-- The mutable state of the `typeset_rich_text_line` loop. -/
structure LineState where
  line : List RenderableGlyph
  word : List RenderableGlyph
  word_start_index : Nat
  caret_x : ℚ
  line_height : ℚ
  last_glyph : Option (Nat × Nat)

/-- Model of `ui/text.rs::RichTextLineTypesetResult` (the borrowed
`excess` slice is the corresponding suffix of the paragraph). -/
structure RichTextLineTypesetResult where
  line : List RenderableGlyph
  line_width : ℚ
  line_height : ℚ
  excess : List RichTextSegment

/-- The character-resolution fallback chain inlined in
`typeset_rich_text_line`: the character itself, then U+FFFD, then `?`,
else the character is dropped. -/
def typesetResolve (style : RichTextStyle) (c : Char) :
    Option (Nat × Font × Nat) :=
  match get_font_for_character style.font_family style.emphasis style.size c with
  | some r => some r
  | none =>
    match get_font_for_character style.font_family style.emphasis style.size
        (Char.ofNat 0xFFFD) with
    | some r => some r
    | none => get_font_for_character style.font_family style.emphasis style.size '?'

/-- The `for c in segment.text.chars()` loop of `typeset_rich_text_line`.
`.inl` is the early return taken when the max width is exceeded (the
current partial word is abandoned; the caller re-typesets it from
`word_start_index` on the next line); `.inr` continues with the next
segment.  Mirrors the source's order: kerning is added to the caret and
`last_glyph` is updated before the bounding-box check; the glyph is
positioned at the pre-advance caret. -/
def typesetChars (max_width : Option Nat) (style : RichTextStyle) (scale : ℚ) :
    List Char → LineState → LineState ⊕ LineState
  | [], st => .inr st
  | c :: rest, st =>
    match typesetResolve style c with
    | none => typesetChars max_width style scale rest st
    | some (font, font_data, glyph_id) =>
      let caret1 :=
        match st.last_glyph with
        | some (last_font_id, last_glyph_id) =>
          if font = last_font_id then
            st.caret_x + font_data.pair_kerning scale last_glyph_id glyph_id
          else st.caret_x
        | none => st.caret_x
      let st1 := { st with caret_x := caret1, last_glyph := some (font, glyph_id) }
      let overflow :=
        match max_width with
        | some mw =>
          match font_data.bb_max_x scale glyph_id caret1 with
          | some bbmax => decide (bbmax ≥ (mw : ℤ))
          | none => false
        | none => false
      if overflow then .inl st1
      else
        let glyph_line_height :=
          font_data.ascent scale - font_data.descent scale + font_data.line_gap scale
        typesetChars max_width style scale rest
          { st1 with
            caret_x := caret1 + font_data.advance scale glyph_id,
            line_height :=
              if glyph_line_height > st1.line_height then glyph_line_height
              else st1.line_height,
            word := st1.word ++
              [{ font := font, colour := style.colour,
                 glyph := { font_data := font_data, glyph_id := glyph_id,
                            scale := scale, pos := (caret1, 0) } }] }

/-- The per-segment `Scale::uniform` table of `typeset_rich_text_line`. -/
def segmentScale (size : FontSize) (scale_factor : ℚ) : ℚ :=
  match size with
  | .H1 => 72 * scale_factor
  | .H2 => 48 * scale_factor
  | .H3 => 36 * scale_factor
  | .Text => 24 * scale_factor

/-- The `while segment_index < paragraph.len()` loop of
`typeset_rich_text_line`: a non-glued segment first commits the pending
word to the line and records the word start index; then the segment's
characters are shaped; an overflow early-return hands back
`paragraph[word_start_index..]` as excess (dropping the pending word). -/
def typeset_rich_text_line_go (max_width : Option Nat) (scale_factor : ℚ)
    (paragraph : List RichTextSegment) :
    List RichTextSegment → Nat → LineState → RichTextLineTypesetResult
  | [], _, st =>
    { line := st.line ++ st.word, line_width := st.caret_x,
      line_height := st.line_height, excess := [] }
  | seg :: rest, segment_index, st =>
    let scale : ℚ := segmentScale seg.style.size scale_factor
    let st1 :=
      if !seg.glue_to_previous then
        { st with line := st.line ++ st.word, word := [],
                  word_start_index := segment_index }
      else st
    match typesetChars max_width seg.style scale seg.text st1 with
    | .inl st2 =>
      { line := st2.line, line_width := st2.caret_x,
        line_height := st2.line_height,
        excess := paragraph.drop st2.word_start_index }
    | .inr st2 =>
      typeset_rich_text_line_go max_width scale_factor paragraph rest
        (segment_index + 1) st2

/-- Model of `ui/text.rs::typeset_rich_text_line`. -/
def typeset_rich_text_line (paragraph : List RichTextSegment)
    (max_width : Option Nat) (scale_factor : ℚ) : RichTextLineTypesetResult :=
  typeset_rich_text_line_go max_width scale_factor paragraph paragraph 0
    { line := [], word := [], word_start_index := 0, caret_x := 0,
      line_height := 0, last_glyph := none }

/-! ## Nine-patch rendering (`graphics/texture.rs::NinePatch`) -/

/-- Model of `graphics/texture.rs::NinePatch`. -/
structure NinePatch where
  texture_region : TextureRegion
  left_margin : Nat
  right_margin : Nat
  top_margin : Nat
  bottom_margin : Nat

/-- `From<Colour> for [f32; 4]`. -/
def Colour.toArray (c : Colour) : ℚ × ℚ × ℚ × ℚ := (c.r, c.g, c.b, c.a)

/-- The `u_positions` array of `NinePatch::generate_render_info` (indexing
past 3 is unreachable: the source array has four entries). -/
def NinePatch.u_positions (np : NinePatch) (frame : Rect) (tex_w : ℚ) :
    Nat → ℚ
  | 0 => (frame.x : ℚ) / tex_w
  | 1 => ((frame.x : ℚ) + np.left_margin) / tex_w
  | 2 => ((frame.x : ℚ) + frame.w - np.right_margin) / tex_w
  | _ => ((frame.x : ℚ) + frame.w) / tex_w

/-- The `v_positions` array of `NinePatch::generate_render_info`. -/
def NinePatch.v_positions (np : NinePatch) (frame : Rect) (tex_h : ℚ) :
    Nat → ℚ
  | 0 => (frame.y : ℚ) / tex_h
  | 1 => ((frame.y : ℚ) + np.bottom_margin) / tex_h
  | 2 => ((frame.y : ℚ) + frame.h - np.top_margin) / tex_h
  | _ => ((frame.y : ℚ) + frame.h) / tex_h

/-- The `x_positions` array of `NinePatch::generate_render_info`. -/
def NinePatch.x_positions (np : NinePatch) (x width : ℚ) : Nat → ℚ
  | 0 => x
  | 1 => x + np.left_margin
  | 2 => x + width - np.right_margin
  | _ => x + width

/-- The `y_positions` array of `NinePatch::generate_render_info`. -/
def NinePatch.y_positions (np : NinePatch) (y height : ℚ) : Nat → ℚ
  | 0 => y
  | 1 => y + np.bottom_margin
  | 2 => y + height - np.top_margin
  | _ => y + height

/-- The nine `(i, j)` grid cells iterated by `generate_render_info`. -/
def ninePatchCells : List (Nat × Nat) :=
  [(0, 0), (0, 1), (0, 2), (1, 0), (1, 1), (1, 2), (2, 0), (2, 1), (2, 2)]

/-- The quadrilateral `generate_render_info` emits for cell `(i, j)`. -/
def mkNineQuad (xs ys us vs : Nat → ℚ) (color : ℚ × ℚ × ℚ × ℚ)
    (ij : Nat × Nat) : Renderable :=
  .Quadrilateral
    { position := (xs ij.1, ys ij.2, 0), color := color,
      tex_coords := (us ij.1, vs ij.2) }
    { position := (xs (ij.1 + 1), ys ij.2, 0), color := color,
      tex_coords := (us (ij.1 + 1), vs ij.2) }
    { position := (xs (ij.1 + 1), ys (ij.2 + 1), 0), color := color,
      tex_coords := (us (ij.1 + 1), vs (ij.2 + 1)) }
    { position := (xs ij.1, ys (ij.2 + 1), 0), color := color,
      tex_coords := (us ij.1, vs (ij.2 + 1)) }

/-- Model of `NinePatch::generate_render_info`: `(x, y)` is the
bottom-left corner of the target shape; returns `Nothing` until the
texture region's atlas information has loaded. -/
def NinePatch.generate_render_info (np : NinePatch) (colour : Colour)
    (x y width height : ℚ) : MultiRenderable :=
  match np.texture_region.info with
  | none => .Nothing
  | some itri =>
    .ImageRegion np.texture_region
      (ninePatchCells.map
        (mkNineQuad (np.x_positions x width) (np.y_positions y height)
          (np.u_positions itri.info.frame itri.partitioned_texture_size.1)
          (np.v_positions itri.info.frame itri.partitioned_texture_size.2)
          colour.toArray))

/-- The affine map from the nine-patch texture's own `[0, 1]` u range into
the atlas sub-region of the partitioned texture. -/
def atlasMapU (frame : Rect) (tex_w u : ℚ) : ℚ :=
  ((frame.x : ℚ) + u * frame.w) / tex_w

/-- The affine map from the nine-patch texture's own `[0, 1]` v range into
the atlas sub-region of the partitioned texture. -/
def atlasMapV (frame : Rect) (tex_h v : ℚ) : ℚ :=
  ((frame.y : ℚ) + v * frame.h) / tex_h

/-- The claimed u breakpoints `{0, l/texW, 1 - r/texW, 1}` of the
nine-patch texture (whose own width is `frame.w`). -/
def uBreak (np : NinePatch) (frame : Rect) : Nat → ℚ
  | 0 => 0
  | 1 => (np.left_margin : ℚ) / frame.w
  | 2 => 1 - (np.right_margin : ℚ) / frame.w
  | _ => 1

/-- The claimed v breakpoints `{0, b/texH, 1 - t/texH, 1}`. -/
def vBreak (np : NinePatch) (frame : Rect) : Nat → ℚ
  | 0 => 0
  | 1 => (np.bottom_margin : ℚ) / frame.h
  | 2 => 1 - (np.top_margin : ℚ) / frame.h
  | _ => 1

/-- The axis-aligned plane region covered by a generated quadrilateral
(the nine-patch quads are axis-aligned with `v0` the bottom-left and `v2`
the top-right corner). -/
def quadRegion (q : Renderable) : Set (ℚ × ℚ) :=
  match q with
  | .Quadrilateral v0 _ v2 _ =>
    Set.Icc v0.position.1 v2.position.1 ×ˢ Set.Icc v0.position.2.1 v2.position.2.1
  | _ => ∅

/-- The interior of the region covered by a generated quadrilateral. -/
def quadInterior (q : Renderable) : Set (ℚ × ℚ) :=
  match q with
  | .Quadrilateral v0 _ v2 _ =>
    Set.Ioo v0.position.1 v2.position.1 ×ˢ Set.Ioo v0.position.2.1 v2.position.2.1
  | _ => ∅

/-- The quads tile the target rectangle losslessly: their union is exactly
the rectangle (no gap, nothing outside), and distinct quads have disjoint
interiors (no overlap). -/
def tilesRect (quads : List Renderable) (x y w h : ℚ) : Prop :=
  (⋃ q ∈ quads, quadRegion q) = Set.Icc x (x + w) ×ˢ Set.Icc y (y + h) ∧
  ∀ q1 ∈ quads, ∀ q2 ∈ quads, q1 ≠ q2 → quadInterior q1 ∩ quadInterior q2 = ∅

/-- The renderables of an `ImageRegion` node. -/
def extractRenderables : MultiRenderable → List Renderable
  | .ImageRegion _ rs => rs
  | _ => []

theorem chainMono (f : Nat → ℚ) (h01 : f 0 ≤ f 1) (h12 : f 1 ≤ f 2)
    (h23 : f 2 ≤ f 3) : ∀ a b, a ≤ b → b ≤ 3 → f a ≤ f b := by
  intro a b hab hb
  interval_cases b <;> interval_cases a <;> first | exact le_refl _ | linarith

theorem Ioo_disjoint_of_le {a b c d : ℚ} (h : b ≤ c) :
    Set.Ioo a b ∩ Set.Ioo c d = ∅ := by
  rw [Set.Ioo_inter_Ioo]
  apply Set.Ioo_eq_empty
  intro hlt
  have h1 := le_max_right a c
  have h2 := min_le_left b d
  linarith

theorem cellInterior_disjoint (xs ys us vs : Nat → ℚ) (col : ℚ × ℚ × ℚ × ℚ)
    (hx : ∀ a b, a ≤ b → b ≤ 3 → xs a ≤ xs b)
    (hy : ∀ a b, a ≤ b → b ≤ 3 → ys a ≤ ys b)
    {i1 j1 i2 j2 : Nat} (hi1 : i1 ≤ 2) (hj1 : j1 ≤ 2) (hi2 : i2 ≤ 2)
    (hj2 : j2 ≤ 2) (hne : ¬(i1 = i2 ∧ j1 = j2)) :
    quadInterior (mkNineQuad xs ys us vs col (i1, j1)) ∩
      quadInterior (mkNineQuad xs ys us vs col (i2, j2)) = ∅ := by
  have hq : ∀ i j, quadInterior (mkNineQuad xs ys us vs col (i, j)) =
      Set.Ioo (xs i) (xs (i + 1)) ×ˢ Set.Ioo (ys j) (ys (j + 1)) :=
    fun i j => rfl
  rw [hq, hq, Set.prod_inter_prod, Set.prod_eq_empty_iff]
  rcases Nat.lt_trichotomy i1 i2 with hlt | heq | hgt
  · left
    exact Ioo_disjoint_of_le (hx (i1 + 1) i2 (by omega) (by omega))
  · subst heq
    have hjne : j1 ≠ j2 := fun hj => hne ⟨rfl, hj⟩
    rcases Nat.lt_trichotomy j1 j2 with hjlt | hjeq | hjgt
    · right
      exact Ioo_disjoint_of_le (hy (j1 + 1) j2 (by omega) (by omega))
    · exact absurd hjeq hjne
    · right
      rw [Set.inter_comm]
      exact Ioo_disjoint_of_le (hy (j2 + 1) j1 (by omega) (by omega))
  · left
    rw [Set.inter_comm]
    exact Ioo_disjoint_of_le (hx (i2 + 1) i1 (by omega) (by omega))

theorem cellBounds : ∀ p ∈ ninePatchCells, p.1 ≤ 2 ∧ p.2 ≤ 2 := by
  intro p hp
  fin_cases hp <;> exact ⟨by omega, by omega⟩

set_option maxHeartbeats 6400000 in
theorem nineCells_union (xs ys us vs : Nat → ℚ) (col : ℚ × ℚ × ℚ × ℚ)
    (hx01 : xs 0 ≤ xs 1) (hx12 : xs 1 ≤ xs 2) (hx23 : xs 2 ≤ xs 3)
    (hy01 : ys 0 ≤ ys 1) (hy12 : ys 1 ≤ ys 2) (hy23 : ys 2 ≤ ys 3) :
    (⋃ q ∈ ninePatchCells.map (mkNineQuad xs ys us vs col), quadRegion q)
      = Set.Icc (xs 0) (xs 3) ×ˢ Set.Icc (ys 0) (ys 3) := by
  have hXs : Set.Icc (xs 0) (xs 3) =
      Set.Icc (xs 0) (xs 1) ∪ Set.Icc (xs 1) (xs 2) ∪ Set.Icc (xs 2) (xs 3) := by
    rw [Set.Icc_union_Icc_eq_Icc hx01 hx12,
      Set.Icc_union_Icc_eq_Icc (le_trans hx01 hx12) hx23]
  have hYs : Set.Icc (ys 0) (ys 3) =
      Set.Icc (ys 0) (ys 1) ∪ Set.Icc (ys 1) (ys 2) ∪ Set.Icc (ys 2) (ys 3) := by
    rw [Set.Icc_union_Icc_eq_Icc hy01 hy12,
      Set.Icc_union_Icc_eq_Icc (le_trans hy01 hy12) hy23]
  rw [hXs, hYs]
  ext p
  simp only [ninePatchCells, List.map_cons, List.map_nil, List.mem_cons,
    List.mem_singleton, List.not_mem_nil, Set.mem_iUnion, Set.mem_prod,
    Set.mem_Icc, Set.mem_union, quadRegion, mkNineQuad, exists_prop,
    exists_eq_or_imp, exists_eq_left, false_and, exists_false, or_false]
  norm_num
  constructor
  · intro h
    rcases h with h | h | h | h | h | h | h | h | h
    · exact ⟨Or.inl (Or.inl h.1), Or.inl (Or.inl h.2)⟩
    · exact ⟨Or.inl (Or.inl h.1), Or.inl (Or.inr h.2)⟩
    · exact ⟨Or.inl (Or.inl h.1), Or.inr h.2⟩
    · exact ⟨Or.inl (Or.inr h.1), Or.inl (Or.inl h.2)⟩
    · exact ⟨Or.inl (Or.inr h.1), Or.inl (Or.inr h.2)⟩
    · exact ⟨Or.inl (Or.inr h.1), Or.inr h.2⟩
    · exact ⟨Or.inr h.1, Or.inl (Or.inl h.2)⟩
    · exact ⟨Or.inr h.1, Or.inl (Or.inr h.2)⟩
    · exact ⟨Or.inr h.1, Or.inr h.2⟩
  · intro ⟨hpx, hpy⟩
    rcases hpx with (h1 | h1) | h1
    · rcases hpy with (h2 | h2) | h2
      · exact Or.inl ⟨h1, h2⟩
      · exact Or.inr (Or.inl ⟨h1, h2⟩)
      · exact Or.inr (Or.inr (Or.inl ⟨h1, h2⟩))
    · rcases hpy with (h2 | h2) | h2
      · exact Or.inr (Or.inr (Or.inr (Or.inl ⟨h1, h2⟩)))
      · exact Or.inr (Or.inr (Or.inr (Or.inr (Or.inl ⟨h1, h2⟩))))
      · exact Or.inr (Or.inr (Or.inr (Or.inr (Or.inr (Or.inl ⟨h1, h2⟩)))))
    · rcases hpy with (h2 | h2) | h2
      · exact Or.inr (Or.inr (Or.inr (Or.inr (Or.inr (Or.inr (Or.inl ⟨h1, h2⟩))))))
      · exact Or.inr (Or.inr (Or.inr (Or.inr (Or.inr (Or.inr (Or.inr
          (Or.inl ⟨h1, h2⟩)))))))
      · exact Or.inr (Or.inr (Or.inr (Or.inr (Or.inr (Or.inr (Or.inr
          (Or.inr ⟨h1, h2⟩)))))))

/-- The nine-patch used to refute the tiling clause of claim C9: a 4×4
texture region with left and right margins of 2, rendered into a target
rectangle of width 1 < 2 + 2. -/
def np9 : NinePatch :=
  { texture_region :=
      { partitioned_texture := 0
        info := some
          { info := { frame := ⟨0, 0, 4, 4⟩, rotated := false, trimmed := false,
                      source := ⟨0, 0, 4, 4⟩ }
            partitioned_texture_size := (4, 4) } }
    left_margin := 2
    right_margin := 2
    top_margin := 0
    bottom_margin := 0 }

/-- Counterexample to claim C9 as stated: at a target rectangle smaller
than the sum of the horizontal margins — `(x, y, w, h) = (0, 0, 1, 1)`
with margins `l = r = 2` — the generated quads do not tile the rectangle:
the left-margin cells span `[0, 2] × [0, 1]`, which sticks out of the
rectangle `[0, 1] × [0, 1]` (the point `(3/2, 1/2)` is covered but lies
outside the target). -/
theorem claim_C9_counterexample :
    ¬ tilesRect (extractRenderables
        (np9.generate_render_info Colour.default 0 0 1 1)) 0 0 1 1 := by
  intro hcon
  obtain ⟨hunion, _⟩ := hcon
  have hp : ((3 / 2 : ℚ), (1 / 2 : ℚ)) ∈
      ⋃ q ∈ extractRenderables (np9.generate_render_info Colour.default 0 0 1 1),
        quadRegion q := by
    simp only [np9, NinePatch.generate_render_info, extractRenderables,
      ninePatchCells, List.map_cons, List.map_nil, Set.mem_iUnion, exists_prop]
    refine ⟨mkNineQuad (np9.x_positions 0 1) (np9.y_positions 0 1)
      (np9.u_positions ⟨0, 0, 4, 4⟩ 4) (np9.v_positions ⟨0, 0, 4, 4⟩ 4)
      Colour.default.toArray (0, 1), by simp [np9], ?_⟩
    simp only [quadRegion, mkNineQuad, Set.mem_prod, Set.mem_Icc,
      NinePatch.x_positions, NinePatch.y_positions, np9]
    norm_num
  rw [hunion] at hp
  simp only [Set.mem_prod, Set.mem_Icc] at hp
  norm_num at hp

/-- Claim C9, amended: for a `NinePatch` with margins `(l, r, t, b)` over
an atlas frame of positive size inside a partitioned texture of positive
size, rendered via `generate_render_info` at target rectangle
`(x, y, w, h)`, the four u breakpoints of the generated texture
coordinates equal `{0, l/texW, 1 - r/texW, 1}` and the four v breakpoints
equal `{0, b/texH, 1 - t/texH, 1}` (where `texW × texH` is the nine-patch
texture's own frame size) scaled into the atlas sub-region of the
partitioned texture; and, provided the target rectangle is at least as
large as the margins (`l + r ≤ w` and `t + b ≤ h`), the nine quads tile
the rectangle from `(x, y)` to `(x + w, y + h)` losslessly, sharing edges
with no gap or overlap. -/
theorem claim_C9_amended (np : NinePatch) (colour : Colour)
    (x y width height : ℚ) (frame : Rect) (rot trim : Bool) (srcRect : Rect)
    (W H : Nat)
    (hinfo : np.texture_region.info = some ⟨⟨frame, rot, trim, srcRect⟩, (W, H)⟩)
    (hfw : 0 < frame.w) (hfh : 0 < frame.h)
    (hwm : (np.left_margin : ℚ) + np.right_margin ≤ width)
    (hhm : (np.top_margin : ℚ) + np.bottom_margin ≤ height) :
    (∀ i, i ≤ 3 → np.u_positions frame W i = atlasMapU frame W (uBreak np frame i)) ∧
    (∀ j, j ≤ 3 → np.v_positions frame H j = atlasMapV frame H (vBreak np frame j)) ∧
    np.generate_render_info colour x y width height =
      .ImageRegion np.texture_region
        (ninePatchCells.map
          (mkNineQuad (np.x_positions x width) (np.y_positions y height)
            (np.u_positions frame W) (np.v_positions frame H) colour.toArray)) ∧
    tilesRect
      (ninePatchCells.map
        (mkNineQuad (np.x_positions x width) (np.y_positions y height)
          (np.u_positions frame W) (np.v_positions frame H) colour.toArray))
      x y width height := by
  have hfw' : (frame.w : ℚ) ≠ 0 := by
    have h : (0 : ℚ) < frame.w := by exact_mod_cast hfw
    linarith
  have hfh' : (frame.h : ℚ) ≠ 0 := by
    have h : (0 : ℚ) < frame.h := by exact_mod_cast hfh
    linarith
  have hx01 : np.x_positions x width 0 ≤ np.x_positions x width 1 := by
    simp only [NinePatch.x_positions]
    have : (0 : ℚ) ≤ np.left_margin := Nat.cast_nonneg _
    linarith
  have hx12 : np.x_positions x width 1 ≤ np.x_positions x width 2 := by
    simp only [NinePatch.x_positions]
    linarith
  have hx23 : np.x_positions x width 2 ≤ np.x_positions x width 3 := by
    simp only [NinePatch.x_positions]
    have : (0 : ℚ) ≤ np.right_margin := Nat.cast_nonneg _
    linarith
  have hy01 : np.y_positions y height 0 ≤ np.y_positions y height 1 := by
    simp only [NinePatch.y_positions]
    have : (0 : ℚ) ≤ np.bottom_margin := Nat.cast_nonneg _
    linarith
  have hy12 : np.y_positions y height 1 ≤ np.y_positions y height 2 := by
    simp only [NinePatch.y_positions]
    linarith
  have hy23 : np.y_positions y height 2 ≤ np.y_positions y height 3 := by
    simp only [NinePatch.y_positions]
    have : (0 : ℚ) ≤ np.top_margin := Nat.cast_nonneg _
    linarith
  refine ⟨?_, ?_, ?_, ?_, ?_⟩
  · intro i hi
    interval_cases i <;>
      simp only [NinePatch.u_positions, atlasMapU, uBreak] <;>
      field_simp <;> ring
  · intro j hj
    interval_cases j <;>
      simp only [NinePatch.v_positions, atlasMapV, vBreak] <;>
      field_simp <;> ring
  · simp only [NinePatch.generate_render_info, hinfo]
  · have hu := nineCells_union (np.x_positions x width) (np.y_positions y height)
      (np.u_positions frame W) (np.v_positions frame H) colour.toArray
      hx01 hx12 hx23 hy01 hy12 hy23
    rw [hu]
    simp [NinePatch.x_positions, NinePatch.y_positions]
  · intro q1 h1 q2 h2 hne
    simp only [List.mem_map] at h1 h2
    obtain ⟨⟨i1, j1⟩, hc1, rfl⟩ := h1
    obtain ⟨⟨i2, j2⟩, hc2, rfl⟩ := h2
    obtain ⟨hi1, hj1⟩ := cellBounds _ hc1
    obtain ⟨hi2, hj2⟩ := cellBounds _ hc2
    refine cellInterior_disjoint _ _ _ _ _
      (chainMono _ hx01 hx12 hx23) (chainMono _ hy01 hy12 hy23)
      hi1 hj1 hi2 hj2 ?_
    intro ⟨he1, he2⟩
    exact hne (by rw [he1, he2])

/-- The nine-patch used as the C9 witness: margins 1, a 4×4 frame in a
4×4 partitioned texture, rendered at the rectangle `(0, 0, 4, 4)`. -/
def np9w : NinePatch :=
  { texture_region :=
      { partitioned_texture := 0
        info := some
          { info := { frame := ⟨0, 0, 4, 4⟩, rotated := false, trimmed := false,
                      source := ⟨0, 0, 4, 4⟩ }
            partitioned_texture_size := (4, 4) } }
    left_margin := 1
    right_margin := 1
    top_margin := 1
    bottom_margin := 1 }

/-- Witness for the amended C9 at the concrete nine-patch `np9w`. -/
theorem claim_C9_amended_witness :
    (∀ i, i ≤ 3 → np9w.u_positions ⟨0, 0, 4, 4⟩ 4 i
        = atlasMapU ⟨0, 0, 4, 4⟩ 4 (uBreak np9w ⟨0, 0, 4, 4⟩ i)) ∧
    (∀ j, j ≤ 3 → np9w.v_positions ⟨0, 0, 4, 4⟩ 4 j
        = atlasMapV ⟨0, 0, 4, 4⟩ 4 (vBreak np9w ⟨0, 0, 4, 4⟩ j)) ∧
    np9w.generate_render_info Colour.default 0 0 4 4 =
      .ImageRegion np9w.texture_region
        (ninePatchCells.map
          (mkNineQuad (np9w.x_positions 0 4) (np9w.y_positions 0 4)
            (np9w.u_positions ⟨0, 0, 4, 4⟩ 4) (np9w.v_positions ⟨0, 0, 4, 4⟩ 4)
            Colour.default.toArray)) ∧
    tilesRect
      (ninePatchCells.map
        (mkNineQuad (np9w.x_positions 0 4) (np9w.y_positions 0 4)
          (np9w.u_positions ⟨0, 0, 4, 4⟩ 4) (np9w.v_positions ⟨0, 0, 4, 4⟩ 4)
          Colour.default.toArray))
      0 0 4 4 :=
  claim_C9_amended np9w Colour.default 0 0 4 4 ⟨0, 0, 4, 4⟩ false false
    ⟨0, 0, 4, 4⟩ 4 4 rfl (by decide) (by decide) (by norm_num [np9w])
    (by norm_num [np9w])

/-- Claim C4: each background typesetting task commits its result only if
the text id it captured at builder creation still equals the current text
id at commit time; for two `set_text` calls on the same `RichText`
(capturing ids `n+1` and `n+2`), whichever order the two tasks' commits
run in, the committed result is the second call's (paragraphs and
`TypesetText`), and the first call's result is discarded, never merged or
reverted to. -/
theorem claim_C4_last_write_wins (c : RichTextContents) (ff1 ff2 : FontFamily)
    (p1 p2 : List (List RichTextSegment)) (t1 t2 : TypesetText) :
    (RichText.set_text c ff1).2.text_id = c.current_text_id + 1 ∧
    (RichText.set_text (RichText.set_text c ff1).1 ff2).2.text_id
        = c.current_text_id + 2 ∧
    (∀ (s : RichTextContents) (id : Nat) (p : List (List RichTextSegment))
        (t : TypesetText),
      s.current_text_id ≠ id → RichTextContents.write s id p t = s) ∧
    RichTextContents.write
        (RichTextContents.write (RichText.set_text (RichText.set_text c ff1).1 ff2).1
          (c.current_text_id + 2) p2 t2)
        (c.current_text_id + 1) p1 t1 =
      { (RichText.set_text (RichText.set_text c ff1).1 ff2).1 with
          paragraphs := p2, typeset := some t2 } ∧
    RichTextContents.write
        (RichTextContents.write (RichText.set_text (RichText.set_text c ff1).1 ff2).1
          (c.current_text_id + 1) p1 t1)
        (c.current_text_id + 2) p2 t2 =
      { (RichText.set_text (RichText.set_text c ff1).1 ff2).1 with
          paragraphs := p2, typeset := some t2 } := by
  obtain ⟨p0, ts0, id0, mw0⟩ := c
  have h12 : id0 + 1 + 1 = id0 + 2 := by omega
  have hne1 : ¬(id0 + 1 + 1 = id0 + 1) := by omega
  have hne2 : ¬(id0 + 2 = id0 + 1) := by omega
  refine ⟨rfl, by simp [RichText.set_text], ?_, ?_, ?_⟩
  · intro s id p t hne
    unfold RichTextContents.write
    rw [if_neg hne]
  · simp [RichText.set_text, RichTextContents.write, h12, hne1, hne2]
  · simp [RichText.set_text, RichTextContents.write, h12, hne1, hne2]

theorem internal_foldl_is_internal
    (ps : List (List RichTextSegment)) (acc : RichTextContentsBuilder) :
    (ps.foldl
      (fun acc para =>
        RichTextContentsBuilder.end_paragraph
          { acc with current_paragraph := acc.current_paragraph ++ para })
      acc).is_internal = acc.is_internal := by
  induction ps generalizing acc with
  | nil => rfl
  | cons p ps ih => exact ih _

theorem internal_is_internal (b : RichTextContentsBuilder)
    (style : RichTextStyle)
    (styled : RichTextContentsBuilder → RichTextContentsBuilder) :
    (b.internal style styled).is_internal = b.is_internal := by
  unfold RichTextContentsBuilder.internal
  exact internal_foldl_is_internal _ b

/-- Claim C10: `RichTextContentsBuilder::finish` aborts (models the
`cannot call finish on internal builders` panic) precisely when called on
an internal builder; the child builder handed to the closure of the
styling combinators `h1`, `bold`, `italic`, `coloured` is internal (and
each combinator is exactly `internal` with the corresponding style); all
builder operations preserve the internal flag, so a builder chained from
the top-level builder returned by `RichText::set_text` stays top-level,
and `finish` on it does not abort and spawns the background typesetting
task with the captured text id. -/
theorem claim_C10_finish_panics :
    (∀ b : RichTextContentsBuilder, b.finish = none ↔ b.is_internal = true) ∧
    (∀ (b : RichTextContentsBuilder) (style : RichTextStyle),
      (b.internalChild style).is_internal = true) ∧
    (∀ (b : RichTextContentsBuilder)
        (styled : RichTextContentsBuilder → RichTextContentsBuilder),
      b.h1 styled = b.internal { b.style with size := FontSize.H1 } styled) ∧
    (∀ (b : RichTextContentsBuilder) (colour : Colour)
        (styled : RichTextContentsBuilder → RichTextContentsBuilder),
      b.coloured colour styled = b.internal { b.style with colour := colour } styled) ∧
    (∀ (b : RichTextContentsBuilder) (text : List Char) (glue : Bool),
      (b.write_maybe_glued text glue).is_internal = b.is_internal) ∧
    (∀ b : RichTextContentsBuilder, b.end_paragraph.is_internal = b.is_internal) ∧
    (∀ (b : RichTextContentsBuilder) (style : RichTextStyle)
        (styled : RichTextContentsBuilder → RichTextContentsBuilder),
      (b.internal style styled).is_internal = b.is_internal ∧
      (b.h1 styled).is_internal = b.is_internal ∧
      (b.bold styled).is_internal = b.is_internal ∧
      (b.italic styled).is_internal = b.is_internal) ∧
    (∀ (c : RichTextContents) (ff : FontFamily),
      (RichText.set_text c ff).2.is_internal = false ∧
      (RichText.set_text c ff).2.finish = some (c.current_text_id + 1, [])) := by
  refine ⟨?_, fun _ _ => rfl, fun _ _ => rfl, fun _ _ _ => rfl, ?_, fun _ => rfl,
    ?_, ?_⟩
  · intro b
    unfold RichTextContentsBuilder.finish
    cases hb : b.is_internal
    · rw [if_neg (by simp [hb])]
      simp
    · rw [if_pos (by simp [hb])]
      simp
  · intro b text glue
    unfold RichTextContentsBuilder.write_maybe_glued
    rfl
  · intro b style styled
    exact ⟨internal_is_internal b style styled, internal_is_internal b _ styled,
      internal_is_internal b _ styled, internal_is_internal b _ styled⟩
  · intro c ff
    refine ⟨rfl, ?_⟩
    unfold RichText.set_text RichTextContentsBuilder.finish
    simp

theorem typesetChars_wsi (mw : Option Nat) (style : RichTextStyle) (scale : ℚ) :
    ∀ (cs : List Char) (st : LineState),
      (typesetChars mw style scale cs st).elim
          (fun st' => st'.word_start_index) (fun st' => st'.word_start_index)
        = st.word_start_index := by
  intro cs
  induction cs with
  | nil =>
    intro st
    rfl
  | cons c rest ih =>
    intro st
    unfold typesetChars
    cases hres : typesetResolve style c with
    | none =>
      exact ih st
    | some r =>
      obtain ⟨font, font_data, glyph_id⟩ := r
      simp only []
      split
    -- overflow: the early return keeps the word start index
      · rfl
    -- no overflow: recurse on a state with the same word start index
      · exact ih _

theorem typesetLineGo_excess (mw : Option Nat) (sf : ℚ)
    (para : List RichTextSegment) :
    ∀ (rem : List RichTextSegment) (segIdx : Nat) (st : LineState),
      para.drop segIdx = rem →
      (st.word_start_index = 0 ∨
        ∃ seg, para[st.word_start_index]? = some seg ∧
          seg.glue_to_previous = false) →
      (typeset_rich_text_line_go mw sf para rem segIdx st).excess = [] ∨
        ∃ i, (i = 0 ∨ ∃ seg, para[i]? = some seg ∧ seg.glue_to_previous = false) ∧
          (typeset_rich_text_line_go mw sf para rem segIdx st).excess
            = para.drop i := by
  intro rem
  induction rem with
  | nil =>
    intro segIdx st _ _
    left
    rfl
  | cons seg rest ih =>
    intro segIdx st hdrop hok
    have hrest : para.drop (segIdx + 1) = rest := by
      have h := congrArg List.tail hdrop
      rw [List.tail_drop] at h
      exact h
    have hseg : para[segIdx]? = some seg := by
      have h0 : (para.drop segIdx)[0]? = some seg := by
        rw [hdrop]
        simp
      rw [List.getElem?_drop] at h0
      simpa using h0
    unfold typeset_rich_text_line_go
    simp only []
    cases hglue : seg.glue_to_previous with
    | true =>
      simp only [hglue, Bool.not_true, Bool.false_eq_true, if_false, ite_false]
      split
      next st2 heq =>
        have hwsi := typesetChars_wsi mw seg.style
          (segmentScale seg.style.size sf) seg.text st
        rw [heq] at hwsi
        simp only [Sum.elim_inl] at hwsi
        right
        exact ⟨st2.word_start_index, by rw [hwsi]; exact hok, rfl⟩
      next st2 heq =>
        have hwsi := typesetChars_wsi mw seg.style
          (segmentScale seg.style.size sf) seg.text st
        rw [heq] at hwsi
        simp only [Sum.elim_inr] at hwsi
        exact ih (segIdx + 1) st2 hrest (by rw [hwsi]; exact hok)
    | false =>
      simp only [hglue, Bool.not_false, if_true, ite_true]
      split
      next st2 heq =>
        have hwsi := typesetChars_wsi mw seg.style
          (segmentScale seg.style.size sf) seg.text
          { st with line := st.line ++ st.word
                    word := []
                    word_start_index := segIdx }
        rw [heq] at hwsi
        simp only [Sum.elim_inl] at hwsi
        right
        refine ⟨st2.word_start_index, ?_, rfl⟩
        rw [hwsi]
        exact Or.inr ⟨seg, hseg, hglue⟩
      next st2 heq =>
        have hwsi := typesetChars_wsi mw seg.style
          (segmentScale seg.style.size sf) seg.text
          { st with line := st.line ++ st.word
                    word := []
                    word_start_index := segIdx }
        rw [heq] at hwsi
        simp only [Sum.elim_inr] at hwsi
        refine ih (segIdx + 1) st2 hrest ?_
        rw [hwsi]
        exact Or.inr ⟨seg, hseg, hglue⟩

/-- The concrete font of the C8 evaluations: every character has a glyph
(its code point), every advance is 10, no kerning, line height 10, and a
pixel bounding box ending 10 past the glyph's (integer) position. -/
def c8Font : Font :=
  { glyph := fun _ => 1,
    advance := fun _ _ => 10,
    pair_kerning := fun _ _ _ => 0,
    ascent := fun _ => 10,
    descent := fun _ => 0,
    line_gap := fun _ => 0,
    bb_max_x := fun _ _ posx => some (posx.num + 10) }

/-- A single-face family using `c8Font` as the regular variant. -/
def c8Face : FontFace :=
  { id := 1
    regular := c8Font
    bold := none
    italic := none
    bold_italic := none }

def c8Style : RichTextStyle :=
  RichTextStyle.default ⟨[c8Face]⟩

/-- The segment produced by `write("foo")`. -/
def c8fooSeg : RichTextSegment :=
  { text := ['f', 'o', 'o'], style := c8Style, glue_to_previous := false }

/-- The segment produced by `write("bar")`. -/
def c8barSeg : RichTextSegment :=
  { text := ['b', 'a', 'r'], style := c8Style, glue_to_previous := false }

/-- The segment produced by `write_glued("bar")`. -/
def c8barSegGlued : RichTextSegment :=
  { text := ['b', 'a', 'r'], style := c8Style, glue_to_previous := true }

/-- Counterexample to the general word-boundary rule of claim C8 as
stated ("a new word begins exactly at segments not marked
glued-to-previous", "a glued segment never starts a new word"): when the
first segment of a paragraph is marked glued (producible with
`write_glued` as the first write), the line typesetter's word still starts
at it — a line overflow hands back an excess word that begins at that
glued segment. -/
theorem claim_C8_counterexample :
    (typeset_rich_text_line [c8barSegGlued] (some 5) 1).excess
        = [c8barSegGlued] ∧
    (typeset_rich_text_line [c8barSegGlued] (some 5) 1).excess ≠ [] ∧
    c8barSegGlued.glue_to_previous = true := by
  have heq : (typeset_rich_text_line [c8barSegGlued] (some 5) 1).excess
      = [c8barSegGlued] := by
    norm_num [typeset_rich_text_line, typeset_rich_text_line_go, typesetChars,
      typesetResolve, get_font_for_character, gffcFaces, get_font_id, c8Style,
      c8Face, c8Font, c8barSegGlued, RichTextStyle.default, segmentScale,
      emphasisIdx, fontSizeIdx]
  refine ⟨heq, ?_, rfl⟩
  rw [heq]
  simp

/-- Claim C8, amended: `write("foo").write_glued("bar")` produces the two
segments `foo` (not glued) and `bar` (glued), and typesetting keeps their
glyphs in one indivisible word: for every font environment and maximum
width, the line typesetter never breaks between them (its excess is either
empty or the whole two-segment word), while `write("foo").write("bar")`
produces two non-glued segments with a break opportunity between them
(witnessed by a concrete font environment and width at which exactly the
`bar` segment overflows to the next line while `foo`'s three glyphs stay);
in general a new word begins exactly at segments not marked
glued-to-previous, except that the first word of a paragraph always starts
at segment 0 even when that segment is marked glued. -/
theorem claim_C8_amended :
    (∀ b : RichTextContentsBuilder,
      ((b.write ['f', 'o', 'o']).write_glued ['b', 'a', 'r']).current_paragraph =
        b.current_paragraph ++
          [{ text := ['f', 'o', 'o'], style := b.style, glue_to_previous := false },
           { text := ['b', 'a', 'r'], style := b.style, glue_to_previous := true }] ∧
      ((b.write ['f', 'o', 'o']).write ['b', 'a', 'r']).current_paragraph =
        b.current_paragraph ++
          [{ text := ['f', 'o', 'o'], style := b.style, glue_to_previous := false },
           { text := ['b', 'a', 'r'], style := b.style, glue_to_previous := false }]) ∧
    (∀ (t1 t2 : List Char) (st1 st2 : RichTextStyle) (mw : Option Nat) (sf : ℚ),
      (typeset_rich_text_line
          [{ text := t1, style := st1, glue_to_previous := false },
           { text := t2, style := st2, glue_to_previous := true }] mw sf).excess
        = [] ∨
      (typeset_rich_text_line
          [{ text := t1, style := st1, glue_to_previous := false },
           { text := t2, style := st2, glue_to_previous := true }] mw sf).excess
        = [{ text := t1, style := st1, glue_to_previous := false },
           { text := t2, style := st2, glue_to_previous := true }]) ∧
    ((typeset_rich_text_line [c8fooSeg, c8barSeg] (some 35) 1).excess
        = [c8barSeg] ∧
      (typeset_rich_text_line [c8fooSeg, c8barSeg] (some 35) 1).line.length = 3) ∧
    ((typeset_rich_text_line [c8fooSeg, c8barSegGlued] (some 35) 1).excess
        = [c8fooSeg, c8barSegGlued] ∧
      (typeset_rich_text_line [c8fooSeg, c8barSegGlued] (some 35) 1).line.length
        = 0) ∧
    (∀ (para : List RichTextSegment) (mw : Option Nat) (sf : ℚ),
      (typeset_rich_text_line para mw sf).excess = [] ∨
        ∃ i, (i = 0 ∨ ∃ seg, para[i]? = some seg ∧ seg.glue_to_previous = false) ∧
          (typeset_rich_text_line para mw sf).excess = para.drop i) := by
  have hfo : should_split_between 'f' 'o' = false := by decide
  have hoo : should_split_between 'o' 'o' = false := by decide
  have hba : should_split_between 'b' 'a' = false := by decide
  have har : should_split_between 'a' 'r' = false := by decide
  have hgen : ∀ (para : List RichTextSegment) (mw : Option Nat) (sf : ℚ),
      (typeset_rich_text_line para mw sf).excess = [] ∨
        ∃ i, (i = 0 ∨ ∃ seg, para[i]? = some seg ∧ seg.glue_to_previous = false) ∧
          (typeset_rich_text_line para mw sf).excess = para.drop i := by
    intro para mw sf
    exact typesetLineGo_excess mw sf para para 0 _ rfl (Or.inl rfl)
  have hbreak : (typeset_rich_text_line [c8fooSeg, c8barSeg] (some 35) 1).excess
      = [c8barSeg] ∧
      (typeset_rich_text_line [c8fooSeg, c8barSeg] (some 35) 1).line.length = 3 := by
    constructor <;>
      norm_num [typeset_rich_text_line, typeset_rich_text_line_go, typesetChars,
        typesetResolve, get_font_for_character, gffcFaces, get_font_id, c8Style,
        c8Face, c8Font, c8fooSeg, c8barSeg, RichTextStyle.default, segmentScale,
        emphasisIdx, fontSizeIdx]
  have hglue35 : (typeset_rich_text_line [c8fooSeg, c8barSegGlued] (some 35) 1).excess
      = [c8fooSeg, c8barSegGlued] ∧
      (typeset_rich_text_line [c8fooSeg, c8barSegGlued] (some 35) 1).line.length
        = 0 := by
    constructor <;>
      norm_num [typeset_rich_text_line, typeset_rich_text_line_go, typesetChars,
        typesetResolve, get_font_for_character, gffcFaces, get_font_id, c8Style,
        c8Face, c8Font, c8fooSeg, c8barSegGlued, RichTextStyle.default,
        segmentScale, emphasisIdx, fontSizeIdx]
  refine ⟨?_, ?_, hbreak, hglue35, hgen⟩
  · intro b
    constructor <;>
      simp [RichTextContentsBuilder.write, RichTextContentsBuilder.write_glued,
        RichTextContentsBuilder.write_maybe_glued, writeRunsGo, hfo, hoo, hba, har]
  · intro t1 t2 st1 st2 mw sf
    rcases hgen [{ text := t1, style := st1, glue_to_previous := false },
        { text := t2, style := st2, glue_to_previous := true }] mw sf with h | ⟨i, hok, hex⟩
    · exact Or.inl h
    · match i, hok with
      | 0, _ => exact Or.inr hex
      | 1, hok =>
        rcases hok with h0 | ⟨seg, hseg, hglue⟩
        · exact absurd h0 (by omega)
        · simp only [List.getElem?_cons_succ, List.getElem?_cons_zero,
            Option.some.injEq] at hseg
          rw [← hseg] at hglue
          simp at hglue
      | (n + 2), hok =>
        rcases hok with h0 | ⟨seg, hseg, _⟩
        · exact absurd h0 (by omega)
        · simp [List.getElem?_cons_succ] at hseg


end QuestSage
